import Mathlib

/-!
# Verification of the `vc-ecdsa-crypto` credential core

Shallow embedding of the credential-lifecycle services of the repository:
the canonicalizer (`ECDSACryptoService.canonicalize`), the dual-mode
sign/verify dispatch (`ECDSACryptoService.sign` / `verify` as driven by
`OffChainService` and `OnChainService`), the issuer (`VCIssuer`), the
verifier (`VCVerifier`) and the mode converter (`VCRevoke`).

JavaScript values that the services manipulate are embedded as the
inductive type `JVal` below; JS objects are association lists in
insertion order, and the `undefined` value (the "absent" marker) is the
constructor `JVal.undef`.  The external collaborators that the spec
places out of scope — the elliptic-curve primitives provided by
`ethers` and the JS `Date` runtime — are embedded as parameter
structures (`EthersProvider`, `DateCodec`) whose operations the
theorems constrain exactly as the spec's §6 contract does.
-/

/-- Embedded JSON-like JavaScript value.  `undef` is JavaScript's
`undefined` (the "absent" marker, distinct from `null`); `obj` keeps
fields in insertion order, as JS objects do. -/
inductive JVal where
  | null : JVal
  | undef : JVal
  | bool : Bool → JVal
  | num : Int → JVal
  | str : String → JVal
  | arr : List JVal → JVal
  | obj : List (String × JVal) → JVal

/-- JavaScript truthiness of an embedded value (`if (x)`). -/
def jsTruthy : JVal → Bool
  | .null => false
  | .undef => false
  | .bool b => b
  | .num n => n != 0
  | .str s => s != ""
  | .arr _ => true
  | .obj _ => true

/-- Is the value the `undefined` marker? -/
def isUndef : JVal → Bool
  | .undef => true
  | _ => false

/-- First binding of a key in a JS object's field list (JS property lookup;
JS objects cannot carry a key twice, so on well-formed input this is the
unique binding). -/
def lookupF : List (String × JVal) → String → Option JVal
  | [], _ => none
  | (k, v) :: fs, key => if key = k then some v else lookupF fs key

/-- Non-throwing property access `v[key]` for values already known to be
non-nullish: objects yield the bound value or `undefined`; primitives and
arrays yield `undefined` for the property names the services read. -/
def propGet (v : JVal) (key : String) : JVal :=
  match v with
  | .obj fs => (lookupF fs key).getD .undef
  | _ => (.undef)

/-- Property access `v[key]` as JavaScript evaluates it: reading a property
of `null` or `undefined` throws a `TypeError`, every other value yields
the property or `undefined`. -/
def jGetE (v : JVal) (key : String) : Except String JVal :=
  match v with
  | .null => .error ("TypeError: Cannot read properties of null (reading " ++ key ++ ")")
  | .undef => .error ("TypeError: Cannot read properties of undefined (reading " ++ key ++ ")")
  | .obj fs => .ok ((lookupF fs key).getD .undef)
  | _ => .ok (.undef)

/-- The rest-spread `const { proof, ...credential } = vc` used by
`VCVerifier.verifyOffChainCredential` and `VCRevoke`: drops the `proof`
key, keeps all other fields in insertion order.  (The services only ever
reach this on object-valued credentials; the non-object branch is
unreachable on the analysed paths.) -/
def stripProof : JVal → List (String × JVal)
  | .obj fs => fs.filter (fun p => p.1 != "proof")
  | _ => []

/-- Fields whose value is not the absent marker (the `filter` in
`ECDSACryptoService.canonicalize`). -/
def filterDefined (fs : List (String × JVal)) : List (String × JVal) :=
  fs.filter (fun p => !isUndef p.2)

/-- JSON escaping of one character, as `JSON.stringify` performs on string
values. -/
def escChar (c : Char) : String :=
  if c = '"' then "\\\""
  else if c = '\\' then "\\\\"
  else if c = '\n' then "\\n"
  else if c = '\r' then "\\r"
  else if c = '\t' then "\\t"
  else if c = '\x08' then "\\b"
  else if c = '\x0c' then "\\f"
  else if c.toNat < 32 then
    "\\u00" ++ String.singleton (Nat.digitChar (c.toNat / 16)) ++
      String.singleton (Nat.digitChar (c.toNat % 16))
  else String.singleton c

/-- `JSON.stringify` of a string value. -/
def jsonQuote (s : String) : String :=
  "\"" ++ String.join (s.data.map escChar) ++ "\""

/-- `Array.prototype.join(",")`, used for the canonicalizer's list and
record bodies. -/
def commaJoin : List String → String
  | [] => ""
  | [a] => a
  | a :: rest => a ++ "," ++ commaJoin rest

/-- One canonicalized record field before sorting/filtering: key, whether
the original value was `undefined`, and the canonical text of the value. -/
abbrev CEntry := String × Bool × String

/-- Strict lexicographic order on character lists by code point — the
comparison underlying the JS default string sort used by
`Object.keys(obj).sort()`. -/
def lexLt : List Char → List Char → Bool
  | [], [] => false
  | [], _ :: _ => true
  | _ :: _, [] => false
  | a :: as, b :: bs =>
    if a.toNat < b.toNat then true
    else if b.toNat < a.toNat then false
    else lexLt as bs

/-- Non-strict string order for the key sort. -/
def strLe (s t : String) : Bool := s == t || lexLt s.data t.data

/-- ASCII lowercasing of one character — the effect of
`String.prototype.toLowerCase` on the hex key / address material the
services compare. -/
def lcChar (c : Char) : Char :=
  if 65 ≤ c.toNat && c.toNat ≤ 90 then Char.ofNat (c.toNat + 32) else c

/-- `s.toLowerCase()` on the services' hex strings. -/
def lowerStr (s : String) : String := String.mk (s.data.map lcChar)

/-- Insert an element into a list sorted by its `key` projection. -/
def insertByKey (key : α → String) (a : α) : List α → List α
  | [] => [a]
  | b :: l => if strLe (key a) (key b) then a :: b :: l else b :: insertByKey key a l

/-- Insertion sort by a `key` projection (`Object.keys(obj).sort()`; any
correct sort yields the same list on the distinct keys of a JS object). -/
def sortByKey (key : α → String) : List α → List α
  | [] => []
  | a :: l => insertByKey key a (sortByKey key l)

/-- Sort canonicalized fields by key. -/
def sortEntries (l : List CEntry) : List CEntry := sortByKey (fun e => e.1) l

/-- Keep an entry iff its original value was defined (not `undefined`). -/
def entryDefined (e : CEntry) : Bool := !e.2.1

/-- Render one kept entry: `"key":value` (the source renders the key with
a raw template literal, not through `JSON.stringify`). -/
def renderEntry (e : CEntry) : String := "\"" ++ e.1 ++ "\":" ++ e.2.2

/-- Render the kept entries. -/
def renderEntries (l : List CEntry) : List String :=
  (l.filter entryDefined).map renderEntry

mutual

/-- `ECDSACryptoService.canonicalize` (same body is duplicated privately in
`VCIssuer`): `null`/`undefined` render as bare text, primitives through
JSON literal rules, arrays element-wise in order, records with keys sorted
and `undefined`-valued keys dropped.  The source sorts the key list, then
filters, then renders each kept key's value; with the distinct keys of a
JS object this equals canonicalizing every field first (`canonEntries`,
which makes the recursion structural), then sorting and filtering. -/
def canonicalize : JVal → String
  | .null => "null"
  | .undef => "undefined"
  | .bool b => if b then "true" else "false"
  | .num n => toString n
  | .str s => jsonQuote s
  | .arr xs => "[" ++ commaJoin (canonList xs) ++ "]"
  | .obj fs => "\x7b" ++ commaJoin (renderEntries (sortEntries (canonEntries fs))) ++ "\x7d"
termination_by structural v => v

/-- Canonicalize each array element. -/
def canonList : List JVal → List String
  | [] => []
  | x :: xs => canonicalize x :: canonList xs
termination_by structural l => l

/-- Canonicalize each record field, remembering whether the value was
`undefined`. -/
def canonEntries : List (String × JVal) → List CEntry
  | [] => []
  | (k, v) :: fs => (k, isUndef v, canonicalize v) :: canonEntries fs
termination_by structural l => l

end

example : canonicalize (.obj [("b", .num 2), ("a", .num 1), ("c", .undef)]) =
    "\x7b\"a\":1,\"b\":2\x7d" := by decide

example : canonicalize (.arr [.num 1, .undef, .str "x"]) = "[1,undefined,\"x\"]" := by decide

mutual

/-- JavaScript string coercion of a value, as used by template literals in
error messages (objects/arrays only matter here through array `join`,
which renders nullish elements as the empty string). -/
def jsDisplay : JVal → String
  | .null => "null"
  | .undef => "undefined"
  | .bool b => if b then "true" else "false"
  | .num n => toString n
  | .str s => s
  | .arr xs => commaJoin (jsDisplayList xs)
  | .obj _ => "[object Object]"
termination_by structural v => v

/-- Display of array elements for `Array.prototype.toString`. -/
def jsDisplayList : List JVal → List String
  | [] => []
  | .null :: xs => "" :: jsDisplayList xs
  | .undef :: xs => "" :: jsDisplayList xs
  | x :: xs => jsDisplay x :: jsDisplayList xs
termination_by structural l => l

end

/-- `true` iff the list of keys has no duplicate — the invariant every JS
object's field list satisfies. -/
def keysNodup : List String → Bool
  | [] => true
  | k :: ks => !ks.contains k && keysNodup ks

mutual

/-- Well-formedness of an embedded value as a JS runtime value: every
record's keys are distinct (JS objects cannot bind a key twice). -/
def jwf : JVal → Bool
  | .obj fs => keysNodup (fs.map Prod.fst) && jwfFields fs
  | .arr xs => jwfList xs
  | _ => true
termination_by structural v => v

/-- Well-formedness of every element. -/
def jwfList : List JVal → Bool
  | [] => true
  | x :: xs => jwf x && jwfList xs
termination_by structural l => l

/-- Well-formedness of every field value. -/
def jwfFields : List (String × JVal) → Bool
  | [] => true
  | (_, v) :: fs => jwf v && jwfFields fs
termination_by structural l => l

end

/-- Sort a field list by key. -/
def sortFields (l : List (String × JVal)) : List (String × JVal) :=
  sortByKey (fun p => p.1) l

mutual

/-- Order-insensitive normal form of a value: record fields are
recursively normalized, the `undefined`-valued ones dropped, and the rest
sorted by key.  Two JS values have the same normal form exactly when they
carry the same set of defined keys bound to structurally equal values at
every nesting level, regardless of insertion order — the equivalence the
spec's determinism invariant quantifies over. -/
def jnorm : JVal → JVal
  | .null => .null
  | .undef => .undef
  | .bool b => .bool b
  | .num n => .num n
  | .str s => .str s
  | .arr xs => .arr (jnormList xs)
  | .obj fs => .obj (sortFields (filterDefined (jnormFields fs)))
termination_by structural v => v

/-- Normalize every element. -/
def jnormList : List JVal → List JVal
  | [] => []
  | x :: xs => jnorm x :: jnormList xs
termination_by structural l => l

/-- Normalize every field value. -/
def jnormFields : List (String × JVal) → List (String × JVal)
  | [] => []
  | (k, v) :: fs => (k, jnorm v) :: jnormFields fs
termination_by structural l => l

end

/-!
## External collaborators

The spec (§1, §6) places the elliptic-curve primitives and the JS `Date`
runtime outside this system; they are embedded as parameter structures.
A `none` result of a provider operation models the underlying library
throwing.
-/

/-- The `ethers` secp256k1 primitives consumed by
`ECDSACryptoService.sign`/`verify` (§6 Crypto Provider contract):
raw signing (`wallet.signingKey.sign`), prefixed signing
(`wallet.signMessage`), public-key recovery
(`SigningKey.recoverPublicKey`) and address recovery
(`ethers.verifyMessage`). -/
structure EthersProvider where
  signRaw : String → String → Option String
  signPfx : String → String → Option String
  recoverPubKey : String → String → Option String
  recoverAddress : String → String → Option String

/-- `ECDSACryptoService.sign(data, privateKey, { ethereumPrefix })`:
dispatches on the mode flag to the raw or prefixed primitive. -/
def cryptoSign (P : EthersProvider) (data privateKey : String) (ethPfx : Bool) :
    Option String :=
  if ethPfx then P.signPfx data privateKey else P.signRaw data privateKey

/-- `ECDSACryptoService.verify(data, signature, publicKeyOrAddress,
{ ethereumPrefix })`: prefixed mode recovers an address via
`ethers.verifyMessage`, raw mode recovers the full public key via
`SigningKey.recoverPublicKey`; either is compared case-insensitively
against the expected key material.  Any throw of the underlying library
(modelled by `none`) is caught and yields `false`. -/
def cryptoVerify (P : EthersProvider) (data signature publicKeyOrAddress : String)
    (ethPfx : Bool) : Bool :=
  match (if ethPfx then P.recoverAddress data signature
         else P.recoverPubKey data signature) with
  | some recovered => lowerStr recovered == lowerStr publicKeyOrAddress
  | none => false

/-- The JS `Date` runtime as used by the services: `encode` is
`Date.prototype.toISOString` on an epoch-milliseconds instant, `parse` is
`new Date(string).getTime()` (`none` = Invalid Date).  The two laws are
the `Date` round-trip guarantees the services rely on. -/
structure DateCodec where
  encode : Int → String
  parse : String → Option Int
  parse_encode : ∀ t, parse (encode t) = some t
  encode_nonempty : ∀ t, encode t ≠ ""

/-- `new Date(x)` on a field value: ISO strings parse through the codec,
numbers are epoch milliseconds, other shapes the services never feed it
are Invalid Date. -/
def jsDateOf (dc : DateCodec) : JVal → Option Int
  | .str s => dc.parse s
  | .num n => some n
  | _ => none

/-- Concrete `DateCodec` witness: a sign tag followed by a tally of the
absolute milliseconds.  Injective with a computable inverse, which is all
the services observe of ISO strings. -/
def tallyCodec : DateCodec where
  encode t :=
    if 0 ≤ t then String.mk ('P' :: List.replicate t.toNat 'i')
    else String.mk ('N' :: List.replicate (-t).toNat 'i')
  parse s :=
    match s.data with
    | 'P' :: r => some (r.length : Int)
    | 'N' :: r => some (-(r.length : Int))
    | _ => none
  parse_encode t := by
    by_cases h : 0 ≤ t
    · simp only [h, if_pos, String.mk]
      simp [Int.toNat_of_nonneg h]
    · simp only [h, if_neg, String.mk, not_false_iff]
      simp only [List.length_replicate]
      rw [Int.toNat_of_nonneg (by omega : (0:Int) ≤ -t)]
      simp
  encode_nonempty t := by
    by_cases h : 0 ≤ t
    · simp only [if_pos h]
      intro hc
      have hd := congrArg String.data hc
      simp at hd
    · simp only [if_neg h]
      intro hc
      have hd := congrArg String.data hc
      simp at hd

/-!
## Issuer (`VCIssuer`)
-/

/-- `https://www.w3.org/ns/credentials/v2` — the W3C VC 2.0 base context. -/
def W3C_VC_CONTEXT_V2 : String := "https://www.w3.org/ns/credentials/v2"

/-- The option bag accepted by `VCIssuer.issueOffChainCredential` /
`issueOnChainCredential` (`CreateCredentialOptions` plus the per-mode key
identifier and `validityDays`). -/
structure CreateOpts where
  validityDays : Option Int := none
  publicKey : Option String := none
  ethereumAddress : Option String := none
  credentialTypes : Option (List String) := none
  additionalContexts : Option (List String) := none
  credentialId : Option String := none
  credentialStatus : Option JVal := none
  credentialSchema : Option JVal := none
  evidence : Option JVal := none
  termsOfUse : Option JVal := none

/-- JS truthiness of an optional string option (`!options.publicKey`
is `true` both when the option is absent and when it is `""`). -/
def optStrTruthy : Option String → Bool
  | none => false
  | some s => s != ""

/-- JS truthiness of an optional number option
(`if (options.validityDays)` treats `0` as absent). -/
def optNumTruthy : Option Int → Bool
  | none => false
  | some d => d != 0

/-- One optional field append guarded by JS truthiness of the value
(`if (options.x) credential.x = options.x`). -/
def optField (key : String) : Option JVal → List (String × JVal)
  | none => []
  | some v => if jsTruthy v then [(key, v)] else []

/-- Milliseconds per day: `expiryDate.setDate(getDate() + validityDays)`
moves the instant by whole days. -/
def dayMs : Int := 86400000

/-- `VCIssuer.createCredentialDocument`: the unsigned claims document, with
fields in the source's insertion order.  `validUntil` is produced only
when `options.validityDays` is truthy (so `0` and absent both omit it);
`validFrom` is the current instant. -/
def createCredentialDocument (dc : DateCodec) (issuer subject : JVal)
    (opts : CreateOpts) (now : Int) : List (String × JVal) :=
  let validUntil : Option String :=
    if optNumTruthy opts.validityDays then
      some (dc.encode (now + (opts.validityDays.getD 0) * dayMs))
    else none
  ("@context", .arr ((W3C_VC_CONTEXT_V2 :: opts.additionalContexts.getD []).map .str)) ::
  ("type", .arr (("VerifiableCredential" :: opts.credentialTypes.getD []).map .str)) ::
  ("issuer", issuer) ::
  ("validFrom", .str (dc.encode now)) ::
  ("credentialSubject", subject) ::
  ((if optStrTruthy opts.credentialId then [("id", .str (opts.credentialId.getD ""))] else []) ++
   (match validUntil with
    | some s => if s != "" then [("validUntil", .str s)] else []
    | none => []) ++
   optField "credentialStatus" opts.credentialStatus ++
   optField "credentialSchema" opts.credentialSchema ++
   optField "evidence" opts.evidence ++
   optField "termsOfUse" opts.termsOfUse)

/-- The issuer identifier interpolated into `verificationMethod`:
`typeof issuer === "string" ? issuer : issuer.id` — reading `.id` of a
nullish issuer throws, any other non-string issuer coerces its `id`
property to text. -/
def issuerIdE : JVal → Except String String
  | .str s => .ok s
  | .null => .error "TypeError: Cannot read properties of null (reading id)"
  | .undef => .error "TypeError: Cannot read properties of undefined (reading id)"
  | v => .ok (jsDisplay (propGet v "id"))

/-- `VCIssuer.issueOffChainCredential`: requires the `publicKey` option
(JS-truthy), builds the unsigned document, canonicalizes and hashes it,
signs the hash raw (no Ethereum prefix) through `OffChainService`, and
attaches the off-chain proof.  An `Except.error` is a synchronous JS
throw. -/
def issueOffChainCredential (P : EthersProvider) (dc : DateCodec)
    (H : String → String) (issuer subject : JVal) (privateKey : String)
    (opts : CreateOpts) (now : Int) : Except String JVal :=
  if !optStrTruthy opts.publicKey then
    .error "publicKey is required for off-chain credentials"
  else
    let credential := createCredentialDocument dc issuer subject opts now
    let credentialHash := H (canonicalize (.obj credential))
    match P.signRaw credentialHash privateKey with
    | none => .error "ECDSA signing failed"
    | some signature =>
      match issuerIdE issuer with
      | .error e => .error e
      | .ok iid =>
        .ok (.obj (credential ++ [("proof", .obj
          [("type", .str "EcdsaSecp256k1RecoverySignature2020"),
           ("created", .str (dc.encode now)),
           ("proofPurpose", .str "assertionMethod"),
           ("verificationMethod", .str (iid ++ "#keys-1")),
           ("proofValue", .str signature)])]))

/-- `VCIssuer.issueOnChainCredential`: requires the `ethereumAddress`
option (JS-truthy), builds the same unsigned document, signs the hash
with the Ethereum prefix through `OnChainService`, and attaches the
on-chain proof naming the address as verification method. -/
def issueOnChainCredential (P : EthersProvider) (dc : DateCodec)
    (H : String → String) (issuer subject : JVal) (privateKey : String)
    (opts : CreateOpts) (now : Int) : Except String JVal :=
  if !optStrTruthy opts.ethereumAddress then
    .error "ethereumAddress is required for on-chain credentials"
  else
    let credential := createCredentialDocument dc issuer subject opts now
    let credentialHash := H (canonicalize (.obj credential))
    match P.signPfx credentialHash privateKey with
    | none => .error "ECDSA signing failed"
    | some signature =>
      .ok (.obj (credential ++ [("proof", .obj
        [("type", .str "EcdsaSecp256k1Signature2019"),
         ("created", .str (dc.encode now)),
         ("proofPurpose", .str "assertionMethod"),
         ("verificationMethod", .str (opts.ethereumAddress.getD "")),
         ("proofValue", .str signature)])]))

/-!
## Verifier (`VCVerifier`)
-/

/-- The options of `VCVerifier.verifyOffChainCredential`. -/
structure VerifyOpts where
  checkExpiration : Option Bool := none
  checkNotBefore : Option Bool := none
  currentTime : Option Int := none

/-- The `VerificationResult` surface the claims observe: the `verified`
flag and the optional error text.  (The success payload `details` /
`verifiableCredential` echoes fields of the input and carries no
information the analysed properties depend on.) -/
structure VerificationResult where
  verified : Bool
  error : Option String
deriving DecidableEq

/-- Temporal stage 1 of `VCVerifier.validateCredential`:
`options.checkNotBefore !== false && vc.validFrom` guards a comparison of
the current time against `new Date(vc.validFrom)`; a comparison against
an Invalid Date is `false` (NaN). -/
def notBeforeCheck (dc : DateCodec) (vf : JVal) (opts : VerifyOpts) (ct : Int) :
    Option String :=
  if opts.checkNotBefore != some false && jsTruthy vf then
    match jsDateOf dc vf with
    | some t => if ct < t then
        some ("Credential not yet valid. Valid from: " ++ jsDisplay vf) else none
    | none => none
  else none

/-- Temporal stage 2 of `VCVerifier.validateCredential`:
`options.checkExpiration !== false && vc.validUntil`. -/
def expirationCheck (dc : DateCodec) (vu : JVal) (opts : VerifyOpts) (ct : Int) :
    Option String :=
  if opts.checkExpiration != some false && jsTruthy vu then
    match jsDateOf dc vu with
    | some t => if ct > t then
        some ("Credential expired. Valid until: " ++ jsDisplay vu) else none
    | none => none
  else none

/-- Structural stage of `VCVerifier.validateCredential`: the four required
fields must be JS-truthy. -/
def requiredFieldsCheck (ctx ty iss sub : JVal) : Option String :=
  if !jsTruthy ctx || !jsTruthy ty || !jsTruthy iss || !jsTruthy sub then
    some "Credential missing required fields"
  else none

/-- `Array.prototype.includes(tag)` on an embedded array whose sought
element is a string: `===` on strings is value equality, any non-string
element compares unequal. -/
def arrIncludesStr (xs : List JVal) (tag : String) : Bool :=
  xs.any (fun v => match v with | .str s => s == tag | _ => false)

/-- Does `sub` occur as a prefix of `l`? -/
def startsWithL : List Char → List Char → Bool
  | [], _ => true
  | _ :: _, [] => false
  | a :: as, b :: bs => a == b && startsWithL as bs

/-- `String.prototype.includes` on the underlying character lists. -/
def containsL (sub : List Char) : List Char → Bool
  | [] => sub.isEmpty
  | b :: bs => startsWithL sub (b :: bs) || containsL sub bs

/-- `vc.type.includes("VerifiableCredential")`: arrays use
`Array.prototype.includes`, strings `String.prototype.includes`
(substring), and any other truthy value has no `includes` method —
a thrown `TypeError`. -/
def typeTagCheckE (ty : JVal) : Except String (Option String) :=
  match ty with
  | .arr xs => .ok (if arrIncludesStr xs "VerifiableCredential" then none
      else some "Credential type must include \"VerifiableCredential\"")
  | .str s => .ok (if containsL "VerifiableCredential".data s.data then none
      else some "Credential type must include \"VerifiableCredential\"")
  | _ => .error "TypeError: vc.type.includes is not a function"

/-- The check sequence of `VCVerifier.validateCredential` on a non-nullish
credential: current time defaults to now; then, in the source's order,
the not-before check, the expiration check, the required-fields check and
the type-tag check. -/
def validateBody (dc : DateCodec) (vc : JVal) (opts : VerifyOpts)
    (now : Int) : Except String (Option String) :=
  let ct := opts.currentTime.getD now
  match notBeforeCheck dc (propGet vc "validFrom") opts ct with
  | some r => .ok (some r)
  | none =>
    match expirationCheck dc (propGet vc "validUntil") opts ct with
    | some r => .ok (some r)
    | none =>
      match requiredFieldsCheck (propGet vc "@context") (propGet vc "type")
          (propGet vc "issuer") (propGet vc "credentialSubject") with
      | some r => .ok (some r)
      | none => typeTagCheckE (propGet vc "type")

/-- `VCVerifier.validateCredential`: reading `vc.validFrom` of a nullish
credential throws; otherwise the checks of `validateBody` run.  `.ok none`
is a valid credential, `.ok (some reason)` an invalid one, `.error` a JS
throw. -/
def validateCredentialE (dc : DateCodec) (vc : JVal) (opts : VerifyOpts)
    (now : Int) : Except String (Option String) :=
  match vc with
  | .null => .error "TypeError: Cannot read properties of null (reading validFrom)"
  | .undef => .error "TypeError: Cannot read properties of undefined (reading validFrom)"
  | _ => validateBody dc vc opts now

/-- `VCVerifier.extractProof` merged with its caller's use: `null` when
`vc.proof` is falsy, otherwise the first element of a proof array or the
proof itself. -/
def extractedProof (proofField : JVal) : JVal :=
  if jsTruthy proofField then
    match proofField with
    | .arr xs => xs.headD .undef
    | p => p
  else .null

/-- The signature stage of `VCVerifier.verifyOffChainCredential`: strip
the proof, canonicalize and hash the rest, verify the proof's
`proofValue` raw against the supplied public key (a non-string
`proofValue` makes the underlying library throw, which
`ECDSACryptoService.verify` catches into `false`). -/
def proofSigOK (P : EthersProvider) (H : String → String) (vc proofJ : JVal)
    (publicKey : String) : Bool :=
  match propGet proofJ "proofValue" with
  | .str s => cryptoVerify P (H (canonicalize (.obj (stripProof vc)))) s publicKey false
  | _ => false

/-- The body of `VCVerifier.verifyOffChainCredential` before its
`try/catch`: extract the proof, reject when falsy; check the signature
(`proofSigOK`); then run `validateCredential`. -/
def verifyOffChainCredentialE (P : EthersProvider) (dc : DateCodec)
    (H : String → String) (vc : JVal) (publicKey : String)
    (opts : VerifyOpts) (now : Int) : Except String VerificationResult :=
  match jGetE vc "proof" with
  | .error e => .error e
  | .ok proofField =>
    if !jsTruthy (extractedProof proofField) then
      .ok ⟨false, some "No proof found in credential"⟩
    else if !proofSigOK P H vc (extractedProof proofField) publicKey then
      .ok ⟨false, some "Invalid signature"⟩
    else
      match validateCredentialE dc vc opts now with
      | .error e => .error e
      | .ok (some reason) => .ok ⟨false, some reason⟩
      | .ok none => .ok ⟨true, none⟩

/-- `VCVerifier.verifyOffChainCredential`: the whole body runs inside
`try { ... } catch (error) { return { verified: false, error:
`Verification failed: ...` } }`, so every JS throw becomes a structured
failure result and the function never raises. -/
def verifyOffChainCredential (P : EthersProvider) (dc : DateCodec)
    (H : String → String) (vc : JVal) (publicKey : String)
    (opts : VerifyOpts) (now : Int) : VerificationResult :=
  match verifyOffChainCredentialE P dc H vc publicKey opts now with
  | .ok r => r
  | .error e => ⟨false, some ("Verification failed: " ++ e)⟩

/-!
## Mode converter (`VCRevoke`)
-/

/-- `VCRevoke.getCredentialHash`: strip the proof (if present) and hash the
canonical form of the remaining claims document. -/
def getCredentialHash (H : String → String) (vc : JVal) : String :=
  H (canonicalize (.obj (stripProof vc)))

/-- `VCRevoke.verifyHashConsistency`. -/
def verifyHashConsistency (H : String → String) (a b : JVal) : Bool :=
  getCredentialHash H a == getCredentialHash H b

/-- `VCRevoke.convertToOnChain`: strip the existing proof, recompute the
same canonical hash, re-sign it with the Ethereum prefix, and return the
unchanged claims document with the new on-chain proof. -/
def convertToOnChain (P : EthersProvider) (dc : DateCodec)
    (H : String → String) (vc : JVal) (privateKey ethereumAddress : String)
    (now : Int) : Except String JVal :=
  let credential := stripProof vc
  let credentialHash := H (canonicalize (.obj credential))
  match P.signPfx credentialHash privateKey with
  | none => .error "ECDSA signing failed"
  | some signature =>
    .ok (.obj (credential ++ [("proof", .obj
      [("type", .str "EcdsaSecp256k1Signature2019"),
       ("created", .str (dc.encode now)),
       ("proofPurpose", .str "assertionMethod"),
       ("verificationMethod", .str ethereumAddress),
       ("proofValue", .str signature)])]))

/-- `VCRevoke.verifyOnChainSignature`: recompute the credential hash, take
the first proof of an array or the proof itself, throw when the proof or
its `proofValue` is falsy, and check the prefixed signature against the
expected address (a non-string `proofValue` makes the underlying library
throw, caught into `false`). -/
def verifyOnChainSignature (P : EthersProvider) (H : String → String)
    (vc : JVal) (expectedAddress : String) : Except String Bool :=
  let credentialHash := getCredentialHash H vc
  let proofJ :=
    match propGet vc "proof" with
    | .arr xs => xs.headD .undef
    | p => p
  if !jsTruthy proofJ || !jsTruthy (propGet proofJ "proofValue") then
    .error "VC does not have a valid proof"
  else
    match propGet proofJ "proofValue" with
    | .str s => .ok (cryptoVerify P credentialHash s expectedAddress true)
    | _ => .ok false

/-!
## Order and sorting lemmas
-/

theorem charNat_inj {a b : Char} (h : a.toNat = b.toNat) : a = b := by
  have hc := congrArg Char.ofNat h
  rwa [Char.ofNat_toNat, Char.ofNat_toNat] at hc

theorem lexLt_self : ∀ as, lexLt as as = false
  | [] => rfl
  | _ :: as => by simp [lexLt, lexLt_self as]

theorem lexLt_eq_of_not : ∀ as bs, lexLt as bs = false → lexLt bs as = false → as = bs
  | [], [], _, _ => rfl
  | [], _ :: _, h, _ => by simp [lexLt] at h
  | _ :: _, [], _, h => by simp [lexLt] at h
  | a :: as, b :: bs, h1, h2 => by
    simp only [lexLt] at h1 h2
    by_cases hab : a.toNat < b.toNat
    · simp [hab] at h1
    · by_cases hba : b.toNat < a.toNat
      · simp [hba] at h2
      · have hcc : a = b := charNat_inj (by omega)
        subst hcc
        simp only [if_neg hab, if_neg hba] at h1 h2
        rw [lexLt_eq_of_not as bs h1 h2]

theorem lexLt_trans : ∀ as bs cs, lexLt as bs = true → lexLt bs cs = true →
    lexLt as cs = true := by
  intro as
  induction as with
  | nil =>
    intro bs cs h1 h2
    cases bs with
    | nil => simp [lexLt] at h1
    | cons b bs =>
      cases cs with
      | nil => simp [lexLt] at h2
      | cons c cs => simp [lexLt]
  | cons a as ih =>
    intro bs cs h1 h2
    cases bs with
    | nil => simp [lexLt] at h1
    | cons b bs =>
      cases cs with
      | nil => simp [lexLt] at h2
      | cons c cs =>
        simp only [lexLt] at h1 h2 ⊢
        by_cases hab : a.toNat < b.toNat
        · by_cases hbc : b.toNat < c.toNat
          · rw [if_pos (show a.toNat < c.toNat by omega)]
          · by_cases hcb : c.toNat < b.toNat
            · rw [if_neg hbc, if_pos hcb] at h2
              simp at h2
            · rw [if_pos (show a.toNat < c.toNat by omega)]
        · by_cases hba : b.toNat < a.toNat
          · rw [if_neg hab, if_pos hba] at h1
            simp at h1
          · rw [if_neg hab, if_neg hba] at h1
            by_cases hbc : b.toNat < c.toNat
            · rw [if_pos (show a.toNat < c.toNat by omega)]
            · by_cases hcb : c.toNat < b.toNat
              · rw [if_neg hbc, if_pos hcb] at h2
                simp at h2
              · rw [if_neg hbc, if_neg hcb] at h2
                rw [if_neg (show ¬a.toNat < c.toNat by omega),
                  if_neg (show ¬c.toNat < a.toNat by omega)]
                exact ih bs cs h1 h2

theorem strLe_refl (s : String) : strLe s s = true := by simp [strLe]

theorem strLe_total (s t : String) : strLe s t = true ∨ strLe t s = true := by
  by_cases h1 : lexLt s.data t.data = true
  · exact Or.inl (by simp [strLe, h1])
  · by_cases h2 : lexLt t.data s.data = true
    · exact Or.inr (by simp [strLe, h2])
    · have hd : s.data = t.data :=
        lexLt_eq_of_not _ _ (by simpa using h1) (by simpa using h2)
      exact Or.inl (by simp [strLe, String.ext hd])

theorem strLe_trans {s t u : String} (h1 : strLe s t = true)
    (h2 : strLe t u = true) : strLe s u = true := by
  simp only [strLe, Bool.or_eq_true, beq_iff_eq] at h1 h2 ⊢
  rcases h1 with h1 | h1
  · subst h1; exact h2
  · rcases h2 with h2 | h2
    · subst h2; exact Or.inr h1
    · exact Or.inr (lexLt_trans _ _ _ h1 h2)

theorem strLe_antisymm {s t : String} (h1 : strLe s t = true)
    (h2 : strLe t s = true) : s = t := by
  simp only [strLe, Bool.or_eq_true, beq_iff_eq] at h1 h2
  rcases h1 with h1 | h1
  · exact h1
  · rcases h2 with h2 | h2
    · exact h2.symm
    · exact absurd (lexLt_trans _ _ _ h1 h2) (by simp [lexLt_self])

/-- The non-strict order on values induced by their sort keys. -/
def keyLe (key : α → String) (a b : α) : Prop := strLe (key a) (key b) = true

theorem insertByKey_perm (key : α → String) (a : α) :
    ∀ l, (insertByKey key a l).Perm (a :: l)
  | [] => List.Perm.refl _
  | b :: l => by
    simp only [insertByKey]
    split
    · exact List.Perm.refl _
    · exact ((insertByKey_perm key a l).cons b).trans (List.Perm.swap _ _ _)

theorem sortByKey_perm (key : α → String) : ∀ l, (sortByKey key l).Perm l
  | [] => List.Perm.refl _
  | a :: l => (insertByKey_perm key a _).trans ((sortByKey_perm key l).cons a)

theorem pairwise_insertByKey (key : α → String) (a : α) :
    ∀ l, List.Pairwise (keyLe key) l →
      List.Pairwise (keyLe key) (insertByKey key a l)
  | [], _ => List.pairwise_singleton _ _
  | b :: l, h => by
    rcases List.pairwise_cons.mp h with ⟨hb, hl⟩
    simp only [insertByKey]
    split
    case isTrue hc =>
      refine List.pairwise_cons.mpr ⟨?_, h⟩
      intro x hx
      rcases List.mem_cons.mp hx with rfl | hx
      · exact hc
      · exact strLe_trans hc (hb x hx)
    case isFalse hc =>
      refine List.pairwise_cons.mpr ⟨?_, pairwise_insertByKey key a l hl⟩
      intro x hx
      have hx' : x ∈ a :: l := (insertByKey_perm key a l).mem_iff.mp hx
      rcases List.mem_cons.mp hx' with rfl | h''
      · rcases strLe_total (key x) (key b) with ht | ht
        · exact absurd ht hc
        · exact ht
      · exact hb x h''

theorem sorted_sortByKey (key : α → String) :
    ∀ l, List.Pairwise (keyLe key) (sortByKey key l)
  | [] => List.Pairwise.nil
  | a :: l => pairwise_insertByKey key a _ (sorted_sortByKey key l)

/-- Two lists that are permutations with duplicate-free keys have the same
key sort. -/
theorem sortByKey_eq_of_perm (key : α → String) {l₁ l₂ : List α}
    (h : l₁.Perm l₂) (hnd : (l₁.map key).Nodup) :
    sortByKey key l₁ = sortByKey key l₂ := by
  have anti : IsAntisymm α (fun a b => strLe (key a) (key b) = true ∧ key a ≠ key b) :=
    ⟨fun a b hab hba => absurd (strLe_antisymm hab.1 hba.1) hab.2⟩
  have hp : (sortByKey key l₁).Perm (sortByKey key l₂) :=
    (sortByKey_perm key l₁).trans (h.trans (sortByKey_perm key l₂).symm)
  have hnd₁ : ((sortByKey key l₁).map key).Nodup :=
    (((sortByKey_perm key l₁).map key).nodup_iff).mpr hnd
  have hnd₂ : ((sortByKey key l₂).map key).Nodup :=
    ((hp.map key).nodup_iff).mp hnd₁
  have hne₁ : List.Pairwise (fun a b => key a ≠ key b) (sortByKey key l₁) :=
    List.pairwise_map.mp hnd₁
  have hne₂ : List.Pairwise (fun a b => key a ≠ key b) (sortByKey key l₂) :=
    List.pairwise_map.mp hnd₂
  exact @List.eq_of_perm_of_sorted _ _ anti _ _ hp
    ((sorted_sortByKey key l₁).and hne₁) ((sorted_sortByKey key l₂).and hne₂)

/-- Filtering commutes with the key sort when the kept keys are
duplicate-free. -/
theorem filter_sortByKey (key : α → String) (p : α → Bool) (l : List α)
    (hnd : ((l.filter p).map key).Nodup) :
    (sortByKey key l).filter p = sortByKey key (l.filter p) := by
  have anti : IsAntisymm α (fun a b => strLe (key a) (key b) = true ∧ key a ≠ key b) :=
    ⟨fun a b hab hba => absurd (strLe_antisymm hab.1 hba.1) hab.2⟩
  have hp : ((sortByKey key l).filter p).Perm (sortByKey key (l.filter p)) :=
    ((sortByKey_perm key l).filter p).trans (sortByKey_perm key (l.filter p)).symm
  have hnd₁ : (((sortByKey key l).filter p).map key).Nodup :=
    ((((sortByKey_perm key l).filter p).map key).nodup_iff).mpr hnd
  have hle₁ : List.Pairwise (keyLe key) ((sortByKey key l).filter p) :=
    List.Pairwise.sublist (List.filter_sublist _) (sorted_sortByKey key l)
  have hne₁ : List.Pairwise (fun a b => key a ≠ key b) ((sortByKey key l).filter p) :=
    List.pairwise_map.mp hnd₁
  have hne₂ : List.Pairwise (fun a b => key a ≠ key b) (sortByKey key (l.filter p)) :=
    List.pairwise_map.mp ((hp.map key).nodup_iff.mp hnd₁)
  exact @List.eq_of_perm_of_sorted _ _ anti _ _ hp (hle₁.and hne₁)
    ((sorted_sortByKey key (l.filter p)).and hne₂)

/-!
## Canonicalizer structure lemmas
-/

/-- The canonicalized form of one record field. -/
def entryOf (p : String × JVal) : CEntry := (p.1, isUndef p.2, canonicalize p.2)

theorem canonEntries_eq_map : ∀ fs, canonEntries fs = fs.map entryOf
  | [] => rfl
  | (_, _) :: fs => by simp [canonEntries, entryOf, canonEntries_eq_map fs]

theorem canonList_eq_map : ∀ xs, canonList xs = xs.map canonicalize
  | [] => rfl
  | _ :: xs => by simp [canonList, canonList_eq_map xs]

theorem filter_canonEntries (fs : List (String × JVal)) :
    (canonEntries fs).filter entryDefined = (filterDefined fs).map entryOf := by
  rw [canonEntries_eq_map, List.filter_map]
  rfl

theorem canonicalize_obj (fs : List (String × JVal)) :
    canonicalize (.obj fs) =
      "\x7b" ++ commaJoin (renderEntries (sortEntries (canonEntries fs))) ++ "\x7d" := by
  simp [canonicalize]

/-- Rendering after the key sort only depends on the multiset of defined
entries, provided their keys are duplicate-free. -/
theorem renderSorted_congr {l₁ l₂ : List CEntry}
    (h : (l₁.filter entryDefined).Perm (l₂.filter entryDefined))
    (hnd : ((l₁.filter entryDefined).map (fun e : CEntry => e.1)).Nodup) :
    renderEntries (sortEntries l₁) = renderEntries (sortEntries l₂) := by
  have hnd₂ : ((l₂.filter entryDefined).map (fun e : CEntry => e.1)).Nodup :=
    ((h.map _).nodup_iff).mp hnd
  unfold renderEntries sortEntries
  rw [filter_sortByKey _ _ _ hnd, filter_sortByKey _ _ _ hnd₂,
    sortByKey_eq_of_perm _ h hnd]

theorem keysNodup_iff : ∀ ks : List String, keysNodup ks = true ↔ ks.Nodup := by
  intro ks
  induction ks with
  | nil => simp [keysNodup]
  | cons k ks ih => simp [keysNodup, ih, List.elem_iff]

theorem isUndef_jnorm : ∀ v, isUndef (jnorm v) = isUndef v := by
  intro v
  cases v <;> simp [jnorm, isUndef]

theorem jnormFields_filterDefined : ∀ fs,
    filterDefined (jnormFields fs) = jnormFields (filterDefined fs) := by
  intro fs
  induction fs with
  | nil => rfl
  | cons p fs ih =>
    obtain ⟨k, v⟩ := p
    by_cases hv : isUndef v = true
    · simp [jnormFields, filterDefined, List.filter_cons, isUndef_jnorm, hv] at ih ⊢
      exact ih
    · simp [jnormFields, filterDefined, List.filter_cons, isUndef_jnorm, hv] at ih ⊢
      exact ih

theorem jwfFields_filter (p : String × JVal → Bool) : ∀ fs,
    jwfFields fs = true → jwfFields (fs.filter p) = true := by
  intro fs
  induction fs with
  | nil => simp
  | cons q fs ih =>
    obtain ⟨k, v⟩ := q
    intro h
    simp only [jwfFields, Bool.and_eq_true] at h
    by_cases hq : p (k, v)
    · simp only [List.filter_cons, hq, if_pos, jwfFields, Bool.and_eq_true]
      exact ⟨h.1, ih h.2⟩
    · simp only [List.filter_cons, if_neg hq]
      exact ih h.2

theorem filterDefined_idem (l : List (String × JVal)) :
    filterDefined (filterDefined l) = filterDefined l := by
  simp [filterDefined, List.filter_filter]

mutual

/-- Canonicalization factors through the order-insensitive normal form:
on well-formed values (distinct record keys, as every JS object has),
`canonicalize` cannot distinguish a value from its normal form. -/
theorem canon_jnorm (v : JVal) (h : jwf v = true) :
    canonicalize (jnorm v) = canonicalize v := by
  cases v with
  | null => rfl
  | undef => rfl
  | bool b => rfl
  | num n => rfl
  | str s => rfl
  | arr xs =>
    have h' : jwfList xs = true := by simpa [jwf] using h
    show canonicalize (.arr (jnormList xs)) = canonicalize (.arr xs)
    simp only [canonicalize]
    rw [canonList_jnorm xs h']
  | obj fs =>
    have h' : keysNodup (fs.map Prod.fst) = true ∧ jwfFields fs = true := by
      simpa [jwf, Bool.and_eq_true] using h
    obtain ⟨hnd, hwf⟩ := h'
    show canonicalize (.obj (sortFields (filterDefined (jnormFields fs)))) =
      canonicalize (.obj fs)
    rw [canonicalize_obj, canonicalize_obj]
    have hkey : ((canonEntries fs).filter entryDefined).map (fun e : CEntry => e.1) =
        (filterDefined fs).map Prod.fst := by
      rw [filter_canonEntries, List.map_map]
      rfl
    have hndf : (((canonEntries fs).filter entryDefined).map
        (fun e : CEntry => e.1)).Nodup := by
      rw [hkey]
      exact List.Nodup.sublist ((List.filter_sublist fs).map Prod.fst)
        ((keysNodup_iff _).mp hnd)
    have hperm : ((canonEntries fs).filter entryDefined).Perm
        ((canonEntries (sortFields (filterDefined (jnormFields fs)))).filter
          entryDefined) := by
      have hLperm : (sortFields (filterDefined (jnormFields fs))).Perm
          (filterDefined (jnormFields fs)) := sortByKey_perm _ _
      have step1 : (canonEntries (sortFields (filterDefined (jnormFields fs)))).Perm
          (canonEntries (filterDefined (jnormFields fs))) := by
        rw [canonEntries_eq_map, canonEntries_eq_map]
        exact hLperm.map entryOf
      have step2 : ((canonEntries (sortFields (filterDefined (jnormFields fs)))).filter
          entryDefined).Perm
          ((canonEntries (filterDefined (jnormFields fs))).filter entryDefined) :=
        step1.filter entryDefined
      have step3 : (canonEntries (filterDefined (jnormFields fs))).filter entryDefined =
          (canonEntries (jnormFields fs)).filter entryDefined := by
        rw [filter_canonEntries, filter_canonEntries, filterDefined_idem]
      have step4 : (canonEntries (jnormFields fs)).filter entryDefined =
          (canonEntries fs).filter entryDefined := by
        rw [canonEntries_jnorm fs hwf]
      have step5 : ((canonEntries (sortFields (filterDefined (jnormFields fs)))).filter
          entryDefined).Perm ((canonEntries fs).filter entryDefined) := by
        rw [← step4, ← step3]
        exact step2
      exact step5.symm
    rw [renderSorted_congr hperm hndf]
termination_by structural v

theorem canonList_jnorm (xs : List JVal) (h : jwfList xs = true) :
    canonList (jnormList xs) = canonList xs := by
  cases xs with
  | nil => rfl
  | cons x xs =>
    have h' : jwf x = true ∧ jwfList xs = true := by
      simpa [jwfList, Bool.and_eq_true] using h
    show canonicalize (jnorm x) :: canonList (jnormList xs) =
      canonicalize x :: canonList xs
    rw [canon_jnorm x h'.1, canonList_jnorm xs h'.2]
termination_by structural xs

theorem canonEntries_jnorm (fs : List (String × JVal)) (h : jwfFields fs = true) :
    canonEntries (jnormFields fs) = canonEntries fs := by
  cases fs with
  | nil => rfl
  | cons p fs =>
    obtain ⟨k, v⟩ := p
    have h' : jwf v = true ∧ jwfFields fs = true := by
      simpa [jwfFields, Bool.and_eq_true] using h
    show (k, isUndef (jnorm v), canonicalize (jnorm v)) :: canonEntries (jnormFields fs) =
      (k, isUndef v, canonicalize v) :: canonEntries fs
    rw [canon_jnorm v h'.1, canonEntries_jnorm fs h'.2, isUndef_jnorm]
termination_by structural fs

end

theorem canonEntries_append (l₁ l₂ : List (String × JVal)) :
    canonEntries (l₁ ++ l₂) = canonEntries l₁ ++ canonEntries l₂ := by
  rw [canonEntries_eq_map, canonEntries_eq_map, canonEntries_eq_map, List.map_append]

theorem filterSorted_perm (l : List CEntry) :
    ((sortEntries l).filter entryDefined).Perm (l.filter entryDefined) := by
  unfold sortEntries
  exact (sortByKey_perm _ l).filter entryDefined

theorem commaJoin_length : ∀ l, (commaJoin l).length =
    (l.map String.length).sum + l.length - 1 := by
  intro l
  induction l with
  | nil => rfl
  | cons a rest ih =>
    cases rest with
    | nil => simp [commaJoin]
    | cons b rest' =>
      show (a ++ "," ++ commaJoin (b :: rest')).length = _
      rw [String.length_append, String.length_append, ih]
      have hcomma : ("," : String).length = 1 := rfl
      have hpos : 1 ≤ (List.map String.length (b :: rest')).sum + (b :: rest').length := by
        simp only [List.length_cons]
        omega
      simp only [List.map_cons, List.sum_cons, List.length_cons] at *
      omega

theorem commaJoin_length_perm {l₁ l₂ : List String} (h : l₁.Perm l₂) :
    (commaJoin l₁).length = (commaJoin l₂).length := by
  rw [commaJoin_length, commaJoin_length, h.length_eq, (h.map String.length).sum_eq]

/-- C4.  For any two JSON-like record values that contain the same set of
keys with defined (non-absent) values mapped to structurally equal values,
`canonicalize` produces byte-identical output regardless of the order in
which the keys were inserted, including for nested records.  The
hypothesis `jnorm v = jnorm w` says exactly that: the normal form
recursively drops `undefined`-valued keys and forgets field order (and
nothing else), so two well-formed values share a normal form iff they
carry the same defined keys bound to structurally equal values at every
nesting level, in any insertion order. -/
theorem canonicalize_order_independent (v w : JVal) (hv : jwf v = true)
    (hw : jwf w = true) (h : jnorm v = jnorm w) :
    canonicalize v = canonicalize w := by
  rw [← canon_jnorm v hv, h, canon_jnorm w hw]

/-- Concrete left operand for the C4 witness: keys inserted in one order,
with a nested record and an `undefined`-valued key. -/
def reorderSampleA : JVal :=
  .obj [("b", .obj [("y", .num 2), ("x", .num 1)]), ("a", .str "s")]

/-- Concrete right operand for the C4 witness: the same defined keys and
values in another insertion order, plus an extra absent-valued key. -/
def reorderSampleB : JVal :=
  .obj [("a", .str "s"), ("b", .obj [("x", .num 1), ("y", .num 2), ("z", .undef)])]

theorem canonicalize_order_independent_witness :
    jwf reorderSampleA = true ∧ jwf reorderSampleB = true ∧
      jnorm reorderSampleA = jnorm reorderSampleB ∧
      canonicalize reorderSampleA = canonicalize reorderSampleB :=
  ⟨by decide, by decide, rfl,
    canonicalize_order_independent reorderSampleA reorderSampleB
      (by decide) (by decide) rfl⟩


theorem str_append_assoc (a b c : String) : a ++ b ++ c = a ++ (b ++ c) := by
  apply String.ext
  simp [String.data_append, List.append_assoc]

theorem filteredKeys (fs : List (String × JVal)) :
    ((canonEntries fs).filter entryDefined).map (fun e : CEntry => e.1) =
      (filterDefined fs).map Prod.fst := by
  rw [filter_canonEntries, List.map_map]
  rfl

theorem filteredKeys_nodup {fs : List (String × JVal)}
    (h : (fs.map Prod.fst).Nodup) :
    (((canonEntries fs).filter entryDefined).map (fun e : CEntry => e.1)).Nodup := by
  rw [filteredKeys]
  exact List.Nodup.sublist ((List.filter_sublist fs).map Prod.fst) h

/-- C5.  For every record `r` (with the distinct keys of a JS object) and
fresh key `k`: binding `k` to the absent marker canonicalizes identically
to leaving `k` out; binding `k` to explicit `null` keeps an entry rendered
as `"k":null`, and the resulting canonical form — and, for any
collision-free hash, the canonical hash — differs from the form without
`k`. -/
theorem canonicalize_absent_vs_null (fields : List (String × JVal)) (k : String)
    (hnd : keysNodup (k :: fields.map Prod.fst) = true) :
    canonicalize (.obj (fields ++ [(k, .undef)])) = canonicalize (.obj fields) ∧
    ("\"" ++ k ++ "\":null") ∈
      renderEntries (sortEntries (canonEntries (fields ++ [(k, .null)]))) ∧
    canonicalize (.obj (fields ++ [(k, .null)])) ≠ canonicalize (.obj fields) ∧
    ∀ H : String → String, Function.Injective H →
      H (canonicalize (.obj (fields ++ [(k, .null)]))) ≠
        H (canonicalize (.obj fields)) := by
  have hnd' : (k :: fields.map Prod.fst).Nodup := (keysNodup_iff _).mp hnd
  have hfieldsnd : (fields.map Prod.fst).Nodup := (List.nodup_cons.mp hnd').2
  have hefilter : (canonEntries (fields ++ [(k, JVal.undef)])).filter entryDefined =
      (canonEntries fields).filter entryDefined := by
    rw [canonEntries_append, List.filter_append]
    simp [canonEntries, entryDefined, isUndef]
  have hpermU : ((canonEntries (fields ++ [(k, JVal.undef)])).filter
      entryDefined).Perm ((canonEntries fields).filter entryDefined) := by
    rw [hefilter]
  have hndU : (((canonEntries (fields ++ [(k, JVal.undef)])).filter
      entryDefined).map (fun e : CEntry => e.1)).Nodup := by
    rw [hefilter]
    exact filteredKeys_nodup hfieldsnd
  have part1 : canonicalize (.obj (fields ++ [(k, .undef)])) =
      canonicalize (.obj fields) := by
    rw [canonicalize_obj, canonicalize_obj, renderSorted_congr hpermU hndU]
  have hrender : renderEntry ((k, false, "null") : CEntry) = "\"" ++ k ++ "\":null" := by
    show "\"" ++ k ++ "\":" ++ "null" = "\"" ++ k ++ "\":null"
    rw [str_append_assoc ("\"" ++ k) "\":" "null"]
    rfl
  have hnullfilter : (canonEntries (fields ++ [(k, JVal.null)])).filter entryDefined =
      ((canonEntries fields).filter entryDefined) ++ [((k, false, "null") : CEntry)] := by
    rw [canonEntries_append, List.filter_append]
    rfl
  have part2 : ("\"" ++ k ++ "\":null") ∈
      renderEntries (sortEntries (canonEntries (fields ++ [(k, .null)]))) := by
    unfold renderEntries
    refine List.mem_map.mpr ⟨((k, false, "null") : CEntry), ?_, hrender⟩
    refine (filterSorted_perm _).mem_iff.mpr ?_
    rw [hnullfilter]
    exact List.mem_append_right _ (List.mem_singleton.mpr rfl)
  have hAperm : (renderEntries (sortEntries (canonEntries (fields ++ [(k, .null)])))).Perm
      ((((canonEntries fields).filter entryDefined).map renderEntry) ++
        [renderEntry ((k, false, "null") : CEntry)]) := by
    unfold renderEntries
    refine ((filterSorted_perm _).map renderEntry).trans ?_
    rw [hnullfilter, List.map_append]
    rfl
  have hBperm : (renderEntries (sortEntries (canonEntries fields))).Perm
      (((canonEntries fields).filter entryDefined).map renderEntry) :=
    (filterSorted_perm _).map renderEntry
  have hrlen : (renderEntry ((k, false, "null") : CEntry)).length = k.length + 7 := by
    show ("\"" ++ k ++ "\":" ++ "null").length = k.length + 7
    rw [String.length_append, String.length_append, String.length_append]
    have h1 : ("\"" : String).length = 1 := rfl
    have h2 : ("\":" : String).length = 2 := rfl
    have h3 : ("null" : String).length = 4 := rfl
    omega
  have hlens : (commaJoin (renderEntries (sortEntries
        (canonEntries (fields ++ [(k, .null)]))))).length ≠
      (commaJoin (renderEntries (sortEntries (canonEntries fields)))).length := by
    rw [commaJoin_length_perm hAperm, commaJoin_length_perm hBperm]
    rw [commaJoin_length, commaJoin_length, List.map_append, List.sum_append,
      List.length_append]
    set X := ((canonEntries fields).filter entryDefined).map renderEntry with hX
    rcases Nat.eq_zero_or_pos X.length with h0 | hpos
    · have hXnil : X = [] := List.length_eq_zero.mp h0
      simp [hXnil, hrlen]
    · simp only [List.map_cons, List.sum_cons, List.map_nil, List.sum_nil,
        List.length_cons, List.length_nil]
      omega
  have part3 : canonicalize (.obj (fields ++ [(k, .null)])) ≠
      canonicalize (.obj fields) := by
    intro heq
    rw [canonicalize_obj, canonicalize_obj] at heq
    have hlen := congrArg String.length heq
    rw [String.length_append, String.length_append, String.length_append,
      String.length_append] at hlen
    exact hlens (by omega)
  exact ⟨part1, part2, part3, fun H hH hEq => part3 (hH hEq)⟩

/-- Witness record for C5. -/
def absentNullSample : List (String × JVal) := [("a", .num 1)]

theorem canonicalize_absent_vs_null_witness :
    keysNodup ("b" :: absentNullSample.map Prod.fst) = true ∧
      canonicalize (.obj (absentNullSample ++ [("b", .undef)])) =
        canonicalize (.obj absentNullSample) ∧
      canonicalize (.obj (absentNullSample ++ [("b", .null)])) ≠
        canonicalize (.obj absentNullSample) :=
  ⟨by decide,
    (canonicalize_absent_vs_null absentNullSample "b" (by decide)).1,
    (canonicalize_absent_vs_null absentNullSample "b" (by decide)).2.2.1⟩

/-- C10.  `canonicalize` is a total function whose output is not always
valid JSON: the top-level absent marker renders as the bare text
`undefined`; an `undefined` element inside a list is rendered in place as
the bare text `undefined` rather than the `null` that `JSON.stringify`
produces there; arrays drop no element (`canonList` maps `canonicalize`
over all of them), while exactly the `undefined`-valued record keys are
dropped (the kept entries are in bijection with the defined fields, and
every rendered entry list has one element per defined field). -/
theorem canonicalize_not_json (fs : List (String × JVal)) (xs : List JVal) :
    canonicalize .undef = "undefined" ∧
    canonicalize (.arr [.num 1, .undef]) = "[1,undefined]" ∧
    "[1,undefined]" ≠ "[1,null]" ∧
    canonList xs = xs.map canonicalize ∧
    (renderEntries (sortEntries (canonEntries fs))).length =
      (filterDefined fs).length := by
  refine ⟨rfl, by decide, by decide, canonList_eq_map xs, ?_⟩
  have h1 : (renderEntries (sortEntries (canonEntries fs))).length =
      ((canonEntries fs).filter entryDefined).length := by
    unfold renderEntries
    rw [List.length_map]
    exact (filterSorted_perm _).length_eq
  rw [h1, filter_canonEntries, List.length_map]

/-!
## Claims about the signing-mode strategy and the issuer
-/

/-- C2.  The two signing modes are not interchangeable: the service
dispatches raw signing to the raw primitive and prefixed verification to
address recovery (and vice versa), so as long as the ECDSA provider's
cross-mode recovery never reproduces the signer's own key material — the
standard secp256k1 guarantee, since the Ethereum prefix changes the
signed digest — a raw-mode signature fails Prefixed-mode verification
against the signer's own address, and a prefixed-mode signature fails
Raw-mode verification against the signer's own public key. -/
theorem mode_exclusive (P : EthersProvider) :
    (∀ data priv addr sig, cryptoSign P data priv false = some sig →
      (∀ r, P.recoverAddress data sig = some r → lowerStr r ≠ lowerStr addr) →
      cryptoVerify P data sig addr true = false) ∧
    (∀ data priv pub sig, cryptoSign P data priv true = some sig →
      (∀ r, P.recoverPubKey data sig = some r → lowerStr r ≠ lowerStr pub) →
      cryptoVerify P data sig pub false = false) := by
  constructor
  · intro data priv addr sig _ hsep
    cases hrec : P.recoverAddress data sig with
    | none => simp [cryptoVerify, hrec]
    | some r =>
      have hne := hsep r hrec
      simp [cryptoVerify, hrec, beq_eq_false_iff_ne, hne]
  · intro data priv pub sig _ hsep
    cases hrec : P.recoverPubKey data sig with
    | none => simp [cryptoVerify, hrec]
    | some r =>
      have hne := hsep r hrec
      simp [cryptoVerify, hrec, beq_eq_false_iff_ne, hne]

/-- Concrete provider for witnesses: deterministic tagged signatures whose
recovery operations only accept their own mode's tag. -/
def sampleProvider : EthersProvider where
  signRaw d _ := some ("R:" ++ d)
  signPfx d _ := some ("P:" ++ d)
  recoverPubKey d s := if s == "R:" ++ d then some "PUB" else none
  recoverAddress d s := if s == "P:" ++ d then some "ADR" else none

theorem mode_exclusive_witness :
    cryptoSign sampleProvider "d" "k" false = some "R:d" ∧
      cryptoVerify sampleProvider "d" "R:d" "ADR" true = false ∧
      cryptoSign sampleProvider "d" "k" true = some "P:d" ∧
      cryptoVerify sampleProvider "d" "P:d" "PUB" false = false := by
  refine ⟨by decide, ?_, by decide, ?_⟩
  · exact (mode_exclusive sampleProvider).1 "d" "k" "ADR" "R:d" (by decide)
      (fun r hr => by simp [sampleProvider] at hr)
  · exact (mode_exclusive sampleProvider).2 "d" "k" "PUB" "P:d" (by decide)
      (fun r hr => by simp [sampleProvider] at hr)

/-- C8.  Calling `issueOffChainCredential` without the `publicKey` option
(resp. `issueOnChainCredential` without `ethereumAddress`) throws the
configuration error synchronously.  The result is this error for *every*
provider, codec, hash, input and instant — in particular for providers
whose signing primitives never succeed — so no document is built,
canonicalized or signed before the throw, and no partial credential state
exists. -/
theorem issue_requires_key_option :
    (∀ (P : EthersProvider) (dc : DateCodec) (H : String → String)
      (issuer subject : JVal) (priv : String) (opts : CreateOpts) (now : Int),
      opts.publicKey = none →
      issueOffChainCredential P dc H issuer subject priv opts now =
        .error "publicKey is required for off-chain credentials") ∧
    (∀ (P : EthersProvider) (dc : DateCodec) (H : String → String)
      (issuer subject : JVal) (priv : String) (opts : CreateOpts) (now : Int),
      opts.ethereumAddress = none →
      issueOnChainCredential P dc H issuer subject priv opts now =
        .error "ethereumAddress is required for on-chain credentials") := by
  constructor
  · intro P dc H issuer subject priv opts now h
    unfold issueOffChainCredential
    rw [h]
    rfl
  · intro P dc H issuer subject priv opts now h
    unfold issueOnChainCredential
    rw [h]
    rfl

/-- A provider whose signing primitives always fail, to exhibit that the
configuration error precedes any signing. -/
def failingProvider : EthersProvider where
  signRaw _ _ := none
  signPfx _ _ := none
  recoverPubKey _ _ := none
  recoverAddress _ _ := none

theorem issue_requires_key_option_witness :
    ({} : CreateOpts).publicKey = none ∧
      issueOffChainCredential failingProvider tallyCodec (fun s => s)
        (.str "iss") (.str "sub") "k" {} 0 =
        .error "publicKey is required for off-chain credentials" ∧
      issueOnChainCredential failingProvider tallyCodec (fun s => s)
        (.str "iss") (.str "sub") "k" {} 0 =
        .error "ethereumAddress is required for on-chain credentials" :=
  ⟨rfl,
    (issue_requires_key_option).1 failingProvider tallyCodec (fun s => s)
      (.str "iss") (.str "sub") "k" {} 0 rfl,
    (issue_requires_key_option).2 failingProvider tallyCodec (fun s => s)
      (.str "iss") (.str "sub") "k" {} 0 rfl⟩

/-!
## Claims about the mode converter
-/

theorem stripProof_append_proof (fs : List (String × JVal)) (p : JVal) :
    stripProof (.obj (fs.filter (fun q => q.1 != "proof") ++ [("proof", p)])) =
      fs.filter (fun q => q.1 != "proof") := by
  simp [stripProof, List.filter_append, List.filter_filter]

/-- C3.  Mode conversion leaves the canonical hash of the claims-document
portion unchanged: for every credential object, converting it on-chain
re-signs exactly the stripped document, so `getCredentialHash` of the
converted credential equals `getCredentialHash` of the original and
`verifyHashConsistency` holds — for every hash function, provider, codec
and instant. -/
theorem hash_invariant_under_conversion (P : EthersProvider) (dc : DateCodec)
    (H : String → String) (fs : List (String × JVal)) (priv addr : String)
    (now : Int) (onvc : JVal)
    (h : convertToOnChain P dc H (.obj fs) priv addr now = .ok onvc) :
    getCredentialHash H onvc = getCredentialHash H (.obj fs) ∧
      verifyHashConsistency H (.obj fs) onvc = true := by
  simp only [convertToOnChain] at h
  cases hsig : P.signPfx (H (canonicalize (.obj (stripProof (.obj fs))))) priv with
  | none => rw [hsig] at h; exact absurd h (by simp)
  | some sig =>
    rw [hsig] at h
    simp only [Except.ok.injEq] at h
    subst h
    have hstrip := stripProof_append_proof fs (.obj
      [("type", .str "EcdsaSecp256k1Signature2019"),
       ("created", .str (dc.encode now)),
       ("proofPurpose", .str "assertionMethod"),
       ("verificationMethod", .str addr),
       ("proofValue", .str sig)])
    constructor
    · unfold getCredentialHash
      rw [show stripProof (.obj fs) = fs.filter (fun q => q.1 != "proof") from rfl]
      rw [hstrip]
    · unfold verifyHashConsistency getCredentialHash
      rw [show stripProof (.obj fs) = fs.filter (fun q => q.1 != "proof") from rfl]
      rw [hstrip]
      simp

/-- Concrete conversion for the C3 witness. -/
def convSampleRes : Except String JVal :=
  convertToOnChain sampleProvider tallyCodec (fun s => s)
    (.obj [("a", .num 1)]) "k" "ADR" 0

/-- The converted credential of the C3 witness. -/
def convSample : JVal := match convSampleRes with | .ok v => v | .error _ => .null

theorem hash_invariant_under_conversion_witness :
    convertToOnChain sampleProvider tallyCodec (fun s => s)
      (.obj [("a", .num 1)]) "k" "ADR" 0 = .ok convSample ∧
    getCredentialHash (fun s => s) convSample =
      getCredentialHash (fun s => s) (.obj [("a", .num 1)]) :=
  ⟨rfl, (hash_invariant_under_conversion sampleProvider tallyCodec (fun s => s)
    [("a", .num 1)] "k" "ADR" 0 convSample rfl).1⟩

/-!
## Claims about credential validity options
-/

theorem lookupF_append_of_ne (l₁ l₂ : List (String × JVal)) (key : String)
    (h : ∀ q ∈ l₁, q.1 ≠ key) :
    lookupF (l₁ ++ l₂) key = lookupF l₂ key := by
  induction l₁ with
  | nil => rfl
  | cons q l₁ ih =>
    obtain ⟨k, v⟩ := q
    have hk : k ≠ key := h (k, v) (List.mem_cons_self _ _)
    simp only [List.cons_append, lookupF, if_neg (Ne.symm hk)]
    exact ih (fun q hq => h q (List.mem_cons_of_mem _ hq))

theorem lookupF_optField_ne (k : String) (o : Option JVal)
    (rest : List (String × JVal)) (key : String) (h : k ≠ key) :
    lookupF (optField k o ++ rest) key = lookupF rest key := by
  apply lookupF_append_of_ne
  intro q hq
  unfold optField at hq
  cases o with
  | none => simp at hq
  | some v =>
    by_cases hv : jsTruthy v
    · simp [hv] at hq
      subst hq
      simpa using h
    · simp [hv] at hq

theorem lookup_validUntil (dc : DateCodec) (issuer subject : JVal)
    (opts : CreateOpts) (now : Int) :
    lookupF (createCredentialDocument dc issuer subject opts now) "validUntil" =
      if optNumTruthy opts.validityDays then
        some (.str (dc.encode (now + (opts.validityDays.getD 0) * dayMs)))
      else none := by
  unfold createCredentialDocument
  simp only [lookupF, if_neg (by decide : ¬("validUntil" = "@context")),
    if_neg (by decide : ¬("validUntil" = "type")),
    if_neg (by decide : ¬("validUntil" = "issuer")),
    if_neg (by decide : ¬("validUntil" = "validFrom")),
    if_neg (by decide : ¬("validUntil" = "credentialSubject")),
    List.append_assoc]
  rw [lookupF_append_of_ne]
  case h =>
    intro q hq
    by_cases hc : optStrTruthy opts.credentialId
    · simp [hc] at hq
      subst hq
      simp
    · simp [hc] at hq
  by_cases hvd : optNumTruthy opts.validityDays
  · have hne : dc.encode (now + (opts.validityDays.getD 0) * dayMs) ≠ "" :=
      dc.encode_nonempty _
    simp [hvd, bne_iff_ne.mpr hne, lookupF]
  · simp only [hvd, Bool.false_eq_true, if_neg, not_false_iff, List.nil_append]
    rw [lookupF_optField_ne _ _ _ _ (by decide),
      lookupF_optField_ne _ _ _ _ (by decide),
      lookupF_optField_ne _ _ _ _ (by decide)]
    unfold optField
    cases opts.termsOfUse with
    | none => rfl
    | some v =>
      by_cases hv : jsTruthy v
      · simp [hv, lookupF]
      · simp [hv, lookupF]

/-- C9 (counterexample to the claim as stated).  `validityDays: -1` is not
strictly positive, yet the issued document carries a `validUntil` (of one
day *before* `validFrom`): the guard `if (options.validityDays)` admits
every nonzero number, not only the strictly positive ones. -/
theorem validityDays_negative_yields_validUntil :
    lookupF (createCredentialDocument tallyCodec (.str "i") (.str "s")
        { validityDays := some (-1) } 0) "validUntil" =
      some (.str (tallyCodec.encode (-86400000))) := by
  rw [lookup_validUntil]
  norm_num [optNumTruthy, dayMs]

/-- C9 (amended).  `validityDays = 0` produces a document with no
`validUntil` field at all, and the expiration check on such a document
never fires, for any options and reference time; a *nonzero* (positive or
negative) `validityDays` yields `validUntil = validFrom + validityDays`
days. -/
theorem validityDays_guard (dc : DateCodec) (issuer subject : JVal)
    (opts : CreateOpts) (now : Int) :
    (opts.validityDays = some 0 →
      lookupF (createCredentialDocument dc issuer subject opts now)
        "validUntil" = none) ∧
    (∀ (opts2 : VerifyOpts) (ct : Int), opts.validityDays = some 0 →
      expirationCheck dc
        (propGet (.obj (createCredentialDocument dc issuer subject opts now))
          "validUntil") opts2 ct = none) ∧
    (∀ d : Int, opts.validityDays = some d → d ≠ 0 →
      lookupF (createCredentialDocument dc issuer subject opts now)
        "validUntil" = some (.str (dc.encode (now + d * dayMs)))) := by
  refine ⟨?_, ?_, ?_⟩
  · intro h
    rw [lookup_validUntil, h]
    simp [optNumTruthy]
  · intro opts2 ct h
    have hlk : lookupF (createCredentialDocument dc issuer subject opts now)
        "validUntil" = none := by
      rw [lookup_validUntil, h]
      simp [optNumTruthy]
    simp [propGet, hlk, expirationCheck, jsTruthy]
  · intro d hd hne
    rw [lookup_validUntil, hd]
    simp [optNumTruthy, hne]

theorem validityDays_guard_witness :
    ({ validityDays := some 0 } : CreateOpts).validityDays = some 0 ∧
      lookupF (createCredentialDocument tallyCodec (.str "i") (.str "s")
        { validityDays := some 0 } 0) "validUntil" = none ∧
      expirationCheck tallyCodec
        (propGet (.obj (createCredentialDocument tallyCodec (.str "i")
          (.str "s") { validityDays := some 0 } 0)) "validUntil") {} 5 = none ∧
      lookupF (createCredentialDocument tallyCodec (.str "i") (.str "s")
        { validityDays := some 2 } 0) "validUntil" =
        some (.str (tallyCodec.encode (2 * dayMs))) := by
  refine ⟨rfl, (validityDays_guard tallyCodec (.str "i") (.str "s") _ 0).1 rfl,
    (validityDays_guard tallyCodec (.str "i") (.str "s") _ 0).2.1 {} 5 rfl, ?_⟩
  have h := (validityDays_guard tallyCodec (.str "i") (.str "s")
    { validityDays := some 2 } 0).2.2 2 rfl (by decide)
  simpa using h

/-!
## Claims about the verifier
-/

theorem str_len_zero {s : String} (h : s.length = 0) : s = "" :=
  String.ext (List.length_eq_zero.mp h)

theorem append_ne_empty_left {a : String} (h : a ≠ "") (b : String) :
    a ++ b ≠ "" := by
  intro hc
  have hl := congrArg String.length hc
  rw [String.length_append] at hl
  have h0 : ("" : String).length = 0 := rfl
  exact h (str_len_zero (by omega))

theorem notBeforeCheck_nonempty {dc : DateCodec} {vf : JVal} {opts : VerifyOpts}
    {ct : Int} {r : String} (h : notBeforeCheck dc vf opts ct = some r) :
    r ≠ "" := by
  unfold notBeforeCheck at h
  split at h
  · split at h
    · split at h
      · rw [Option.some_inj] at h
        subst h
        exact append_ne_empty_left (by decide) _
      · simp at h
    · simp at h
  · simp at h

theorem expirationCheck_nonempty {dc : DateCodec} {vu : JVal} {opts : VerifyOpts}
    {ct : Int} {r : String} (h : expirationCheck dc vu opts ct = some r) :
    r ≠ "" := by
  unfold expirationCheck at h
  split at h
  · split at h
    · split at h
      · rw [Option.some_inj] at h
        subst h
        exact append_ne_empty_left (by decide) _
      · simp at h
    · simp at h
  · simp at h

theorem requiredFieldsCheck_nonempty {ctx ty iss sub : JVal} {r : String}
    (h : requiredFieldsCheck ctx ty iss sub = some r) : r ≠ "" := by
  unfold requiredFieldsCheck at h
  split at h
  · rw [Option.some_inj] at h
    subst h
    decide
  · simp at h

theorem typeTagCheckE_nonempty {ty : JVal} {r : String}
    (h : typeTagCheckE ty = .ok (some r)) : r ≠ "" := by
  unfold typeTagCheckE at h
  split at h
  · split at h <;> simp_all
    subst h
    decide
  · split at h <;> simp_all
    subst h
    decide
  · simp at h

theorem validateBody_reason_nonempty {dc : DateCodec} {vc : JVal}
    {opts : VerifyOpts} {now : Int} {r : String}
    (h : validateBody dc vc opts now = .ok (some r)) : r ≠ "" := by
  unfold validateBody at h
  cases h1 : notBeforeCheck dc (propGet vc "validFrom") opts
      (opts.currentTime.getD now) with
  | some r1 =>
    simp only [h1, Except.ok.injEq, Option.some.injEq] at h
    subst h
    exact notBeforeCheck_nonempty h1
  | none =>
    simp only [h1] at h
    cases h2 : expirationCheck dc (propGet vc "validUntil") opts
        (opts.currentTime.getD now) with
    | some r2 =>
      simp only [h2, Except.ok.injEq, Option.some.injEq] at h
      subst h
      exact expirationCheck_nonempty h2
    | none =>
      simp only [h2] at h
      cases h3 : requiredFieldsCheck (propGet vc "@context") (propGet vc "type")
          (propGet vc "issuer") (propGet vc "credentialSubject") with
      | some r3 =>
        simp only [h3, Except.ok.injEq, Option.some.injEq] at h
        subst h
        exact requiredFieldsCheck_nonempty h3
      | none =>
        simp only [h3] at h
        exact typeTagCheckE_nonempty h

theorem validate_reason_nonempty {dc : DateCodec} {vc : JVal} {opts : VerifyOpts}
    {now : Int} {r : String}
    (h : validateCredentialE dc vc opts now = .ok (some r)) : r ≠ "" := by
  cases vc with
  | null => exact absurd h (by simp [validateCredentialE])
  | undef => exact absurd h (by simp [validateCredentialE])
  | bool b => exact validateBody_reason_nonempty (by simpa [validateCredentialE] using h)
  | num n => exact validateBody_reason_nonempty (by simpa [validateCredentialE] using h)
  | str s => exact validateBody_reason_nonempty (by simpa [validateCredentialE] using h)
  | arr xs => exact validateBody_reason_nonempty (by simpa [validateCredentialE] using h)
  | obj fs => exact validateBody_reason_nonempty (by simpa [validateCredentialE] using h)

theorem verifyE_ok_shape {P : EthersProvider} {dc : DateCodec}
    {H : String → String} {vc : JVal} {pk : String} {opts : VerifyOpts}
    {now : Int} {r : VerificationResult}
    (h : verifyOffChainCredentialE P dc H vc pk opts now = .ok r) :
    r = ⟨true, none⟩ ∨ ∃ msg, r = ⟨false, some msg⟩ ∧ msg ≠ "" := by
  unfold verifyOffChainCredentialE at h
  cases hpf : jGetE vc "proof" with
  | error e => rw [hpf] at h; simp at h
  | ok pf =>
    rw [hpf] at h
    by_cases h1 : jsTruthy (extractedProof pf) = true
    · simp only [h1, Bool.not_true, Bool.false_eq_true, if_false] at h
      by_cases h2 : proofSigOK P H vc (extractedProof pf) pk = true
      · simp only [h2, Bool.not_true, Bool.false_eq_true, if_false] at h
        cases hval : validateCredentialE dc vc opts now with
        | error e => rw [hval] at h; simp at h
        | ok o =>
          cases o with
          | none =>
            rw [hval] at h
            simp only [Except.ok.injEq] at h
            exact Or.inl h.symm
          | some reason =>
            rw [hval] at h
            simp only [Except.ok.injEq] at h
            exact Or.inr ⟨reason, h.symm, validate_reason_nonempty hval⟩
      · have h2' : proofSigOK P H vc (extractedProof pf) pk = false := by
          simpa using h2
        simp only [h2', Bool.not_false, if_true] at h
        simp only [Except.ok.injEq] at h
        exact Or.inr ⟨"Invalid signature", h.symm, by decide⟩
    · have h1' : jsTruthy (extractedProof pf) = false := by simpa using h1
      simp only [h1', Bool.not_false, if_true] at h
      simp only [Except.ok.injEq] at h
      exact Or.inr ⟨"No proof found in credential", h.symm, by decide⟩

/-- C7.  `verifyOffChainCredential` is a total function of its inputs —
the source wraps its whole body in `try/catch`, so no input (null,
`{}`, `{proof:{}}`, or any other embedded JS value) ever raises to the
caller — and on every failure path the structured result carries a
non-empty error string. -/
theorem verify_non_throwing (P : EthersProvider) (dc : DateCodec)
    (H : String → String) (vc : JVal) (pk : String) (opts : VerifyOpts)
    (now : Int) :
    (verifyOffChainCredential P dc H vc pk opts now).verified = false →
    ∃ msg, (verifyOffChainCredential P dc H vc pk opts now).error = some msg ∧
      msg ≠ "" := by
  unfold verifyOffChainCredential
  cases hres : verifyOffChainCredentialE P dc H vc pk opts now with
  | error e =>
    intro _
    exact ⟨"Verification failed: " ++ e, rfl, append_ne_empty_left (by decide) e⟩
  | ok r =>
    intro hv
    rcases verifyE_ok_shape hres with hr | ⟨msg, hr, hne⟩
    · rw [hr] at hv
      simp at hv
    · rw [hr]
      exact ⟨msg, rfl, hne⟩

theorem verify_non_throwing_witness :
    (verifyOffChainCredential failingProvider tallyCodec (fun s => s)
        .null "PUB" {} 0).verified = false ∧
    (verifyOffChainCredential failingProvider tallyCodec (fun s => s)
        (.obj []) "PUB" {} 0).verified = false ∧
    (verifyOffChainCredential failingProvider tallyCodec (fun s => s)
        (.obj [("proof", .obj [])]) "PUB" {} 0).verified = false ∧
    (∃ msg, (verifyOffChainCredential failingProvider tallyCodec (fun s => s)
        .null "PUB" {} 0).error = some msg ∧ msg ≠ "") :=
  ⟨by decide, by decide, by decide,
    verify_non_throwing failingProvider tallyCodec (fun s => s) .null "PUB" {} 0
      (by decide)⟩

/-- Credential with a proof but no `issuer` field, used to exhibit the
order of the verifier's checks. -/
def noIssuerVC : JVal :=
  .obj [("@context", .arr [.str "c"]),
        ("type", .arr [.str "VerifiableCredential"]),
        ("credentialSubject", .str "s"),
        ("proof", .obj [("proofValue", .str "sig")])]

/-- C6 (counterexample to the claim as stated).  For a credential missing
the required `issuer` field (whose signature also fails), the verifier
reports `Invalid signature`, not an error describing the missing field:
the structural check does not precede the signature check. -/
theorem verify_missing_issuer_counterexample :
    propGet noIssuerVC "issuer" = .undef ∧
    verifyOffChainCredential failingProvider tallyCodec (fun s => s)
        noIssuerVC "PUB" {} 0 = ⟨false, some "Invalid signature"⟩ :=
  ⟨rfl, by decide⟩

/-- C6 (amended).  `verifyOffChainCredential` evaluates proof extraction,
then the Signature check, then the Temporal checks, then the Structural
checks, the first failing stage short-circuiting to a failure result:
(1) whenever the extracted proof object's signature check fails, the
result is the `Invalid signature` failure — even when required structural
fields (such as `issuer`) are absent; and (2) within validation, a firing
not-before check yields its temporal reason before any structural check
runs. -/
theorem verify_check_order :
    (∀ (P : EthersProvider) (dc : DateCodec) (H : String → String)
      (fields pfields : List (String × JVal)) (pk : String)
      (opts : VerifyOpts) (now : Int),
      lookupF fields "proof" = some (.obj pfields) →
      proofSigOK P H (.obj fields) (.obj pfields) pk = false →
      verifyOffChainCredential P dc H (.obj fields) pk opts now =
        ⟨false, some "Invalid signature"⟩) ∧
    (∀ (dc : DateCodec) (fs : List (String × JVal)) (opts : VerifyOpts)
      (now : Int) (r : String),
      notBeforeCheck dc (propGet (.obj fs) "validFrom") opts
        (opts.currentTime.getD now) = some r →
      validateCredentialE dc (.obj fs) opts now = .ok (some r)) := by
  constructor
  · intro P dc H fields pfields pk opts now hp hsig
    unfold verifyOffChainCredential verifyOffChainCredentialE
    have hget : jGetE (.obj fields) "proof" = .ok (.obj pfields) := by
      simp [jGetE, hp]
    rw [hget]
    simp [extractedProof, jsTruthy, hsig]
  · intro dc fs opts now r hnb
    simp [validateCredentialE, validateBody, hnb]

theorem verify_check_order_witness :
    lookupF [("@context", .arr [.str "c"]),
             ("type", .arr [.str "VerifiableCredential"]),
             ("credentialSubject", .str "s"),
             ("proof", .obj [("proofValue", .str "sig")])] "proof" =
      some (.obj [("proofValue", .str "sig")]) ∧
    proofSigOK failingProvider (fun s => s)
      (.obj [("@context", .arr [.str "c"]),
             ("type", .arr [.str "VerifiableCredential"]),
             ("credentialSubject", .str "s"),
             ("proof", .obj [("proofValue", .str "sig")])])
      (.obj [("proofValue", .str "sig")]) "PUB" = false ∧
    verifyOffChainCredential failingProvider tallyCodec (fun s => s)
      (.obj [("@context", .arr [.str "c"]),
             ("type", .arr [.str "VerifiableCredential"]),
             ("credentialSubject", .str "s"),
             ("proof", .obj [("proofValue", .str "sig")])]) "PUB" {} 0 =
      ⟨false, some "Invalid signature"⟩ :=
  ⟨rfl, by decide,
    verify_check_order.1 failingProvider tallyCodec (fun s => s) _ _ "PUB" {} 0
      rfl (by decide)⟩

/-!
## Round-trip helper lemmas
-/

theorem lookupF_append_left {l₁ : List (String × JVal)} {key : String} {v : JVal}
    (h : lookupF l₁ key = some v) (l₂ : List (String × JVal)) :
    lookupF (l₁ ++ l₂) key = some v := by
  induction l₁ with
  | nil => simp [lookupF] at h
  | cons q l₁ ih =>
    obtain ⟨k, w⟩ := q
    by_cases hk : key = k
    · simp only [lookupF, if_pos hk] at h
      simp [lookupF, if_pos hk, h]
    · simp only [lookupF, if_neg hk] at h
      simp [lookupF, if_neg hk, ih h]

theorem lookupF_append_none {l₁ : List (String × JVal)} {key : String}
    (h : lookupF l₁ key = none) (l₂ : List (String × JVal)) :
    lookupF (l₁ ++ l₂) key = lookupF l₂ key := by
  induction l₁ with
  | nil => rfl
  | cons q l₁ ih =>
    obtain ⟨k, w⟩ := q
    by_cases hk : key = k
    · simp [lookupF, if_pos hk] at h
    · simp only [lookupF, if_neg hk] at h
      simp [lookupF, if_neg hk, ih h]

theorem mem_idSeg {q : String × JVal} {opts : CreateOpts}
    (h : q ∈ (if optStrTruthy opts.credentialId then
      [(("id" : String), JVal.str (opts.credentialId.getD ""))] else [])) :
    q.1 = "id" := by
  by_cases hc : optStrTruthy opts.credentialId
  · simp [hc] at h
    rw [h]
  · simp [hc] at h

theorem mem_vuSeg {q : String × JVal} {o : Option String}
    (h : q ∈ (match o with
      | some s => if s != "" then [(("validUntil" : String), JVal.str s)] else []
      | none => ([] : List (String × JVal)))) :
    q.1 = "validUntil" := by
  cases o with
  | none => simp at h
  | some s =>
    by_cases hs : s = ""
    · simp [hs] at h
    · simp [hs] at h
      rw [h]

theorem mem_optField {q : String × JVal} {k : String} {o : Option JVal}
    (h : q ∈ optField k o) : q.1 = k := by
  unfold optField at h
  cases o with
  | none => simp at h
  | some v =>
    by_cases hv : jsTruthy v
    · simp [hv] at h
      rw [h]
    · simp [hv] at h

theorem doc_keys (dc : DateCodec) (issuer subject : JVal) (opts : CreateOpts)
    (now : Int) : ∀ q ∈ createCredentialDocument dc issuer subject opts now,
      q.1 ∈ (["@context", "type", "issuer", "validFrom", "credentialSubject",
        "id", "validUntil", "credentialStatus", "credentialSchema",
        "evidence", "termsOfUse"] : List String) := by
  intro q hq
  unfold createCredentialDocument at hq
  simp only [List.mem_cons, List.mem_append] at hq
  rcases hq with rfl | rfl | rfl | rfl | rfl | ⟨⟨⟨⟨⟨h | h⟩ | h⟩ | h⟩ | h⟩ | h⟩
  · simp
  · simp
  · simp
  · simp
  · simp
  · rw [mem_idSeg h]; decide
  · rw [mem_vuSeg h]; decide
  · rw [mem_optField h]; decide
  · rw [mem_optField h]; decide
  · rw [mem_optField h]; decide
  · rw [mem_optField h]; decide

theorem doc_no_proof (dc : DateCodec) (issuer subject : JVal) (opts : CreateOpts)
    (now : Int) : ∀ q ∈ createCredentialDocument dc issuer subject opts now,
      q.1 ≠ "proof" := by
  intro q hq heq
  have hmem := doc_keys dc issuer subject opts now q hq
  rw [heq] at hmem
  exact absurd hmem (by decide)

theorem lookup_doc_validFrom (dc : DateCodec) (issuer subject : JVal)
    (opts : CreateOpts) (now : Int) :
    lookupF (createCredentialDocument dc issuer subject opts now) "validFrom" =
      some (.str (dc.encode now)) := by
  unfold createCredentialDocument
  simp only [lookupF, if_neg (by decide : ¬("validFrom" = "@context")),
    if_neg (by decide : ¬("validFrom" = "type")),
    if_neg (by decide : ¬("validFrom" = "issuer")), if_pos rfl, if_true]

theorem lookup_doc_context (dc : DateCodec) (issuer subject : JVal)
    (opts : CreateOpts) (now : Int) :
    lookupF (createCredentialDocument dc issuer subject opts now) "@context" =
      some (.arr ((W3C_VC_CONTEXT_V2 :: opts.additionalContexts.getD []).map .str)) := by
  unfold createCredentialDocument
  simp only [lookupF, if_pos rfl, if_true]

theorem lookup_doc_type (dc : DateCodec) (issuer subject : JVal)
    (opts : CreateOpts) (now : Int) :
    lookupF (createCredentialDocument dc issuer subject opts now) "type" =
      some (.arr (("VerifiableCredential" :: opts.credentialTypes.getD []).map .str)) := by
  unfold createCredentialDocument
  simp only [lookupF, if_neg (by decide : ¬("type" = "@context")), if_pos rfl, if_true]

theorem lookup_doc_issuer (dc : DateCodec) (issuer subject : JVal)
    (opts : CreateOpts) (now : Int) :
    lookupF (createCredentialDocument dc issuer subject opts now) "issuer" =
      some issuer := by
  unfold createCredentialDocument
  simp only [lookupF, if_neg (by decide : ¬("issuer" = "@context")),
    if_neg (by decide : ¬("issuer" = "type")), if_pos rfl, if_true]

theorem lookup_doc_subject (dc : DateCodec) (issuer subject : JVal)
    (opts : CreateOpts) (now : Int) :
    lookupF (createCredentialDocument dc issuer subject opts now)
      "credentialSubject" = some subject := by
  unfold createCredentialDocument
  simp only [lookupF, if_neg (by decide : ¬("credentialSubject" = "@context")),
    if_neg (by decide : ¬("credentialSubject" = "type")),
    if_neg (by decide : ¬("credentialSubject" = "issuer")),
    if_neg (by decide : ¬("credentialSubject" = "validFrom")), if_pos rfl, if_true]

theorem stripProof_issued (dc : DateCodec) (issuer subject : JVal)
    (opts : CreateOpts) (now : Int) (p : JVal) :
    stripProof (.obj (createCredentialDocument dc issuer subject opts now ++
        [("proof", p)])) = createCredentialDocument dc issuer subject opts now := by
  show (createCredentialDocument dc issuer subject opts now ++
      [("proof", p)]).filter (fun q => q.1 != "proof") =
    createCredentialDocument dc issuer subject opts now
  rw [List.filter_append]
  have h1 : (createCredentialDocument dc issuer subject opts now).filter
      (fun q => q.1 != "proof") = createCredentialDocument dc issuer subject opts now :=
    List.filter_eq_self.mpr (fun q hq => by
      simpa [bne_iff_ne] using doc_no_proof dc issuer subject opts now q hq)
  rw [h1]
  simp

theorem jsTruthy_arr (xs : List JVal) : jsTruthy (.arr xs) = true := rfl

theorem jsTruthy_obj (fs : List (String × JVal)) : jsTruthy (.obj fs) = true := rfl

theorem propGet_obj (fs : List (String × JVal)) (k : String) :
    propGet (.obj fs) k = (lookupF fs k).getD .undef := rfl

theorem validate_issued (dc : DateCodec) (issuer subject : JVal)
    (opts : CreateOpts) (now : Int) (p : JVal)
    (hiss : jsTruthy issuer = true) (hsub : jsTruthy subject = true)
    (hvd : ∀ d, opts.validityDays = some d → 0 ≤ d) :
    validateCredentialE dc
      (.obj (createCredentialDocument dc issuer subject opts now ++
        [("proof", p)])) {} now = .ok none := by
  have hbody : validateCredentialE dc
      (.obj (createCredentialDocument dc issuer subject opts now ++
        [("proof", p)])) {} now =
      validateBody dc
        (.obj (createCredentialDocument dc issuer subject opts now ++
          [("proof", p)])) {} now := rfl
  rw [hbody]
  simp only [validateBody]
  have hct : (({} : VerifyOpts).currentTime.getD now) = now := rfl
  have hvf : propGet (.obj (createCredentialDocument dc issuer subject opts now ++
      [("proof", p)])) "validFrom" = .str (dc.encode now) := by
    simp [propGet, lookupF_append_left (lookup_doc_validFrom dc issuer subject opts now)]
  have hnb : notBeforeCheck dc (.str (dc.encode now)) ({} : VerifyOpts) now = none := by
    simp [notBeforeCheck, jsTruthy, jsDateOf, dc.parse_encode,
      bne_iff_ne.mpr (dc.encode_nonempty now)]
  have hexp : expirationCheck dc
      (propGet (.obj (createCredentialDocument dc issuer subject opts now ++
        [("proof", p)])) "validUntil") ({} : VerifyOpts) now = none := by
    cases hvdo : opts.validityDays with
    | none =>
      have hlk : lookupF (createCredentialDocument dc issuer subject opts now)
          "validUntil" = none := by
        rw [lookup_validUntil, hvdo]
        simp [optNumTruthy]
      have : propGet (.obj (createCredentialDocument dc issuer subject opts now ++
          [("proof", p)])) "validUntil" = .undef := by
        rw [propGet_obj, lookupF_append_none hlk]
        simp [lookupF]
      rw [this]
      simp [expirationCheck, jsTruthy]
    | some d =>
      by_cases hd0 : d = 0
      · have hlk : lookupF (createCredentialDocument dc issuer subject opts now)
            "validUntil" = none := by
          rw [lookup_validUntil, hvdo, hd0]
          simp [optNumTruthy]
        have : propGet (.obj (createCredentialDocument dc issuer subject opts now ++
            [("proof", p)])) "validUntil" = .undef := by
          rw [propGet_obj, lookupF_append_none hlk]
          simp [lookupF]
        rw [this]
        simp [expirationCheck, jsTruthy]
      · have hlk : lookupF (createCredentialDocument dc issuer subject opts now)
            "validUntil" = some (.str (dc.encode (now + d * dayMs))) := by
          rw [lookup_validUntil, hvdo]
          simp [optNumTruthy, hd0]
        have hpg : propGet (.obj (createCredentialDocument dc issuer subject opts now ++
            [("proof", p)])) "validUntil" = .str (dc.encode (now + d * dayMs)) := by
          rw [propGet_obj, lookupF_append_left hlk]
          rfl
        rw [hpg]
        have hdpos : 0 ≤ d := hvd d hvdo
        have hnotgt : ¬(now > now + d * dayMs) := by
          simp only [dayMs]
          omega
        simp [expirationCheck, jsTruthy, jsDateOf, dc.parse_encode,
          bne_iff_ne.mpr (dc.encode_nonempty _), hnotgt]
  have hctx : propGet (.obj (createCredentialDocument dc issuer subject opts now ++
      [("proof", p)])) "@context" =
      .arr ((W3C_VC_CONTEXT_V2 :: opts.additionalContexts.getD []).map .str) := by
    simp [propGet, lookupF_append_left (lookup_doc_context dc issuer subject opts now)]
  have hty : propGet (.obj (createCredentialDocument dc issuer subject opts now ++
      [("proof", p)])) "type" =
      .arr (("VerifiableCredential" :: opts.credentialTypes.getD []).map .str) := by
    simp [propGet, lookupF_append_left (lookup_doc_type dc issuer subject opts now)]
  have hisl : propGet (.obj (createCredentialDocument dc issuer subject opts now ++
      [("proof", p)])) "issuer" = issuer := by
    simp [propGet, lookupF_append_left (lookup_doc_issuer dc issuer subject opts now)]
  have hsbl : propGet (.obj (createCredentialDocument dc issuer subject opts now ++
      [("proof", p)])) "credentialSubject" = subject := by
    simp [propGet, lookupF_append_left (lookup_doc_subject dc issuer subject opts now)]
  rw [hct, hvf, hnb, hexp, hctx, hty, hisl, hsbl]
  have hreq : requiredFieldsCheck
      (.arr ((W3C_VC_CONTEXT_V2 :: opts.additionalContexts.getD []).map .str))
      (.arr (("VerifiableCredential" :: opts.credentialTypes.getD []).map .str))
      issuer subject = none := by
    simp [requiredFieldsCheck, jsTruthy_arr, hiss, hsub]
  rw [hreq]
  simp [typeTagCheckE, arrIncludesStr]

theorem lookupF_eq_none_of_ne {l : List (String × JVal)} {key : String}
    (h : ∀ q ∈ l, q.1 ≠ key) : lookupF l key = none := by
  induction l with
  | nil => rfl
  | cons q l ih =>
    obtain ⟨k, v⟩ := q
    have hk : k ≠ key := h (k, v) (List.mem_cons_self _ _)
    simp only [lookupF, if_neg (Ne.symm hk)]
    exact ih (fun q hq => h q (List.mem_cons_of_mem _ hq))

theorem issueOffChain_ok {P : EthersProvider} {dc : DateCodec}
    {H : String → String} {issuer subject : JVal} {priv pub : String}
    {opts : CreateOpts} {now : Int} {vc : JVal}
    (hpk : opts.publicKey = some pub) (hne : pub ≠ "")
    (h : issueOffChainCredential P dc H issuer subject priv opts now = .ok vc) :
    ∃ sig iid,
      P.signRaw (H (canonicalize (.obj (createCredentialDocument dc issuer
        subject opts now)))) priv = some sig ∧
      issuerIdE issuer = .ok iid ∧
      vc = .obj (createCredentialDocument dc issuer subject opts now ++
        [("proof", .obj
          [("type", .str "EcdsaSecp256k1RecoverySignature2020"),
           ("created", .str (dc.encode now)),
           ("proofPurpose", .str "assertionMethod"),
           ("verificationMethod", .str (iid ++ "#keys-1")),
           ("proofValue", .str sig)])]) := by
  have htr : optStrTruthy opts.publicKey = true := by
    rw [hpk]
    simpa [optStrTruthy] using hne
  simp only [issueOffChainCredential, htr, Bool.not_true, Bool.false_eq_true,
    if_false] at h
  cases hsig : P.signRaw (H (canonicalize (.obj (createCredentialDocument dc
      issuer subject opts now)))) priv with
  | none => rw [hsig] at h; simp at h
  | some sig =>
    rw [hsig] at h
    cases hiid : issuerIdE issuer with
    | error e => rw [hiid] at h; simp at h
    | ok iid =>
      rw [hiid] at h
      simp only [Except.ok.injEq] at h
      exact ⟨sig, iid, rfl, rfl, h.symm⟩

theorem issueOnChain_ok {P : EthersProvider} {dc : DateCodec}
    {H : String → String} {issuer subject : JVal} {priv addr : String}
    {opts : CreateOpts} {now : Int} {vc : JVal}
    (haddr : opts.ethereumAddress = some addr) (hne : addr ≠ "")
    (h : issueOnChainCredential P dc H issuer subject priv opts now = .ok vc) :
    ∃ sig,
      P.signPfx (H (canonicalize (.obj (createCredentialDocument dc issuer
        subject opts now)))) priv = some sig ∧
      vc = .obj (createCredentialDocument dc issuer subject opts now ++
        [("proof", .obj
          [("type", .str "EcdsaSecp256k1Signature2019"),
           ("created", .str (dc.encode now)),
           ("proofPurpose", .str "assertionMethod"),
           ("verificationMethod", .str (opts.ethereumAddress.getD "")),
           ("proofValue", .str sig)])]) := by
  have htr : optStrTruthy opts.ethereumAddress = true := by
    rw [haddr]
    simpa [optStrTruthy] using hne
  simp only [issueOnChainCredential, htr, Bool.not_true, Bool.false_eq_true,
    if_false] at h
  cases hsig : P.signPfx (H (canonicalize (.obj (createCredentialDocument dc
      issuer subject opts now)))) priv with
  | none => rw [hsig] at h; simp at h
  | some sig =>
    rw [hsig] at h
    simp only [Except.ok.injEq] at h
    exact ⟨sig, rfl, h.symm⟩

/-- C1.  Round trip: issuing a credential and immediately verifying it
with the matching key material succeeds, in both modes.  Hypotheses state
the claim's "valid issuer, subject, key pair": truthy issuer/subject, a
non-negative validity period if any, the mode's key option present, and
the §6 provider contract that recovery inverts signing for the matching
key (with, on-chain, ethers' non-empty signature strings).  Off-chain,
`verifyOffChainCredential` of the issued credential returns
`verified: true`; on-chain, `verifyOnChainSignature` of the issued
credential returns `true`. -/
theorem issue_verify_roundtrip :
    (∀ (P : EthersProvider) (dc : DateCodec) (H : String → String)
      (issuer subject : JVal) (priv pub : String) (opts : CreateOpts)
      (now : Int) (vc : JVal),
      jsTruthy issuer = true → jsTruthy subject = true →
      (∀ d, opts.validityDays = some d → 0 ≤ d) →
      opts.publicKey = some pub → pub ≠ "" →
      (∀ digest sg, P.signRaw digest priv = some sg →
        ∃ r, P.recoverPubKey digest sg = some r ∧ lowerStr r = lowerStr pub) →
      issueOffChainCredential P dc H issuer subject priv opts now = .ok vc →
      (verifyOffChainCredential P dc H vc pub {} now).verified = true) ∧
    (∀ (P : EthersProvider) (dc : DateCodec) (H : String → String)
      (issuer subject : JVal) (priv addr : String) (opts : CreateOpts)
      (now : Int) (vc : JVal),
      opts.ethereumAddress = some addr → addr ≠ "" →
      (∀ digest sg, P.signPfx digest priv = some sg →
        sg ≠ "" ∧ ∃ r, P.recoverAddress digest sg = some r ∧
          lowerStr r = lowerStr addr) →
      issueOnChainCredential P dc H issuer subject priv opts now = .ok vc →
      verifyOnChainSignature P H vc addr = .ok true) := by
  constructor
  · intro P dc H issuer subject priv pub opts now vc hiss hsub hvd hpk hpkne
      hrec hish
    obtain ⟨sig, iid, hsig, hiid, rfl⟩ := issueOffChain_ok hpk hpkne hish
    have hlp : lookupF (createCredentialDocument dc issuer subject opts now ++
        [("proof", .obj
          [("type", .str "EcdsaSecp256k1RecoverySignature2020"),
           ("created", .str (dc.encode now)),
           ("proofPurpose", .str "assertionMethod"),
           ("verificationMethod", .str (iid ++ "#keys-1")),
           ("proofValue", .str sig)])]) "proof" = some (.obj
          [("type", .str "EcdsaSecp256k1RecoverySignature2020"),
           ("created", .str (dc.encode now)),
           ("proofPurpose", .str "assertionMethod"),
           ("verificationMethod", .str (iid ++ "#keys-1")),
           ("proofValue", .str sig)]) := by
      rw [lookupF_append_none (lookupF_eq_none_of_ne
        (doc_no_proof dc issuer subject opts now))]
      simp [lookupF]
    have hget : jGetE (.obj (createCredentialDocument dc issuer subject opts now ++
        [("proof", .obj
          [("type", .str "EcdsaSecp256k1RecoverySignature2020"),
           ("created", .str (dc.encode now)),
           ("proofPurpose", .str "assertionMethod"),
           ("verificationMethod", .str (iid ++ "#keys-1")),
           ("proofValue", .str sig)])])) "proof" = .ok (.obj
          [("type", .str "EcdsaSecp256k1RecoverySignature2020"),
           ("created", .str (dc.encode now)),
           ("proofPurpose", .str "assertionMethod"),
           ("verificationMethod", .str (iid ++ "#keys-1")),
           ("proofValue", .str sig)]) := by
      rw [jGetE, hlp]
      rfl
    have hstrip := stripProof_issued dc issuer subject opts now (.obj
          [("type", .str "EcdsaSecp256k1RecoverySignature2020"),
           ("created", .str (dc.encode now)),
           ("proofPurpose", .str "assertionMethod"),
           ("verificationMethod", .str (iid ++ "#keys-1")),
           ("proofValue", .str sig)])
    have hpv : propGet (.obj
          [("type", .str "EcdsaSecp256k1RecoverySignature2020"),
           ("created", .str (dc.encode now)),
           ("proofPurpose", .str "assertionMethod"),
           ("verificationMethod", .str (iid ++ "#keys-1")),
           ("proofValue", .str sig)]) "proofValue" = .str sig := by
      simp [propGet, lookupF]
    have hver : cryptoVerify P (H (canonicalize (.obj
        (createCredentialDocument dc issuer subject opts now)))) sig pub
        false = true := by
      obtain ⟨r, hr, hl⟩ := hrec _ sig hsig
      simp [cryptoVerify, hr, hl]
    have hsok : proofSigOK P H (.obj (createCredentialDocument dc issuer
        subject opts now ++
        [("proof", .obj
          [("type", .str "EcdsaSecp256k1RecoverySignature2020"),
           ("created", .str (dc.encode now)),
           ("proofPurpose", .str "assertionMethod"),
           ("verificationMethod", .str (iid ++ "#keys-1")),
           ("proofValue", .str sig)])])) (.obj
          [("type", .str "EcdsaSecp256k1RecoverySignature2020"),
           ("created", .str (dc.encode now)),
           ("proofPurpose", .str "assertionMethod"),
           ("verificationMethod", .str (iid ++ "#keys-1")),
           ("proofValue", .str sig)]) pub = true := by
      unfold proofSigOK
      rw [hpv, hstrip]
      exact hver
    have hval := validate_issued dc issuer subject opts now (.obj
          [("type", .str "EcdsaSecp256k1RecoverySignature2020"),
           ("created", .str (dc.encode now)),
           ("proofPurpose", .str "assertionMethod"),
           ("verificationMethod", .str (iid ++ "#keys-1")),
           ("proofValue", .str sig)]) hiss hsub hvd
    unfold verifyOffChainCredential verifyOffChainCredentialE
    rw [hget]
    have hex : extractedProof (.obj
          [("type", .str "EcdsaSecp256k1RecoverySignature2020"),
           ("created", .str (dc.encode now)),
           ("proofPurpose", .str "assertionMethod"),
           ("verificationMethod", .str (iid ++ "#keys-1")),
           ("proofValue", .str sig)]) = .obj
          [("type", .str "EcdsaSecp256k1RecoverySignature2020"),
           ("created", .str (dc.encode now)),
           ("proofPurpose", .str "assertionMethod"),
           ("verificationMethod", .str (iid ++ "#keys-1")),
           ("proofValue", .str sig)] := rfl
    simp only [hex, hsok, hval, jsTruthy_obj, Bool.not_true,
      Bool.false_eq_true, if_false]
  · intro P dc H issuer subject priv addr opts now vc haddr hne hrec hish
    obtain ⟨sig, hsig, rfl⟩ := issueOnChain_ok haddr hne hish
    obtain ⟨hsgne, r, hr, hl⟩ := hrec _ sig hsig
    have hlp : lookupF (createCredentialDocument dc issuer subject opts now ++
        [("proof", .obj
          [("type", .str "EcdsaSecp256k1Signature2019"),
           ("created", .str (dc.encode now)),
           ("proofPurpose", .str "assertionMethod"),
           ("verificationMethod", .str (opts.ethereumAddress.getD "")),
           ("proofValue", .str sig)])]) "proof" = some (.obj
          [("type", .str "EcdsaSecp256k1Signature2019"),
           ("created", .str (dc.encode now)),
           ("proofPurpose", .str "assertionMethod"),
           ("verificationMethod", .str (opts.ethereumAddress.getD "")),
           ("proofValue", .str sig)]) := by
      rw [lookupF_append_none (lookupF_eq_none_of_ne
        (doc_no_proof dc issuer subject opts now))]
      simp [lookupF]
    have hstrip := stripProof_issued dc issuer subject opts now (.obj
          [("type", .str "EcdsaSecp256k1Signature2019"),
           ("created", .str (dc.encode now)),
           ("proofPurpose", .str "assertionMethod"),
           ("verificationMethod", .str (opts.ethereumAddress.getD "")),
           ("proofValue", .str sig)])
    have hpv : propGet (.obj
          [("type", .str "EcdsaSecp256k1Signature2019"),
           ("created", .str (dc.encode now)),
           ("proofPurpose", .str "assertionMethod"),
           ("verificationMethod", .str (opts.ethereumAddress.getD "")),
           ("proofValue", .str sig)]) "proofValue" = .str sig := by
      simp [propGet, lookupF]
    unfold verifyOnChainSignature getCredentialHash
    rw [hstrip, propGet_obj, hlp]
    simp only [Option.getD_some]
    rw [hpv]
    have htr : jsTruthy (JVal.str sig) = true := by
      simpa [jsTruthy] using hsgne
    simp only [jsTruthy, htr, Bool.not_true, Bool.or_self, Bool.false_eq_true,
      if_false]
    have hver : cryptoVerify P (H (canonicalize (.obj
        (createCredentialDocument dc issuer subject opts now)))) sig addr
        true = true := by
      simp [cryptoVerify, hr, hl]
    rw [hver]
    have hbne : (sig != "") = true := bne_iff_ne.mpr hsgne
    simp [hbne]

/-- The off-chain credential issued in the C1 witness. -/
def vcOffW : JVal :=
  match issueOffChainCredential sampleProvider tallyCodec (fun s => s)
    (.str "iss") (.str "sub") "k" { publicKey := some "PUB" } 0 with
  | .ok v => v
  | .error _ => .null

/-- The on-chain credential issued in the C1 witness. -/
def vcOnW : JVal :=
  match issueOnChainCredential sampleProvider tallyCodec (fun s => s)
    (.str "iss") (.str "sub") "k" { ethereumAddress := some "ADR" } 0 with
  | .ok v => v
  | .error _ => .null

theorem issue_verify_roundtrip_witness :
    issueOffChainCredential sampleProvider tallyCodec (fun s => s)
      (.str "iss") (.str "sub") "k" { publicKey := some "PUB" } 0 =
      .ok vcOffW ∧
    (verifyOffChainCredential sampleProvider tallyCodec (fun s => s)
      vcOffW "PUB" {} 0).verified = true ∧
    issueOnChainCredential sampleProvider tallyCodec (fun s => s)
      (.str "iss") (.str "sub") "k" { ethereumAddress := some "ADR" } 0 =
      .ok vcOnW ∧
    verifyOnChainSignature sampleProvider (fun s => s) vcOnW "ADR" =
      .ok true := by
  refine ⟨rfl, ?_, rfl, ?_⟩
  · refine issue_verify_roundtrip.1 sampleProvider tallyCodec (fun s => s)
      (.str "iss") (.str "sub") "k" "PUB" { publicKey := some "PUB" } 0 vcOffW
      (by decide) (by decide) ?_ rfl (by decide) ?_ rfl
    · intro d hd
      exact absurd hd (by simp)
    · intro digest sg h
      simp only [sampleProvider] at h
      rw [Option.some_inj] at h
      subst h
      refine ⟨"PUB", ?_, rfl⟩
      simp [sampleProvider]
  · refine issue_verify_roundtrip.2 sampleProvider tallyCodec (fun s => s)
      (.str "iss") (.str "sub") "k" "ADR" { ethereumAddress := some "ADR" } 0
      vcOnW rfl (by decide) ?_ rfl
    intro digest sg h
    simp only [sampleProvider] at h
    rw [Option.some_inj] at h
    subst h
    refine ⟨append_ne_empty_left (by decide) digest, "ADR", ?_, rfl⟩
    simp [sampleProvider]
